import Mathlib

/-!
Record codec and content-addressed keys of the Aerospike block/transaction
client.

A shallow embedding of `src/util.go` (package `utari`) and `src/main.go`
(package `main`).

* A Go `interface{}` value is a `Value`: one constructor per dynamic type that
  the code puts into or asserts out of a bin map.  Go type assertions are exact
  on the dynamic type, so `int32`, `uint32`, `int64` and `int` are different
  constructors, and so are `[]string` and `[]interface{}`.
* Machine integers are `Int`; conversions between widths wrap explicitly.
  `int` is 64 bits wide.
* A `float64` is held as its IEEE-754 bit pattern; `Float64.toRat` is the
  number a finite pattern stands for.
* Library functions (`json.Marshal`, `sha256.Sum256`, `aero.NewKey` and the
  store operations of `aero.Client`) are parameters, bundled in `Aero`.
* A Go `[]string` is `Option (List String)`: `none` is the nil slice.
* A Go `(T, error)` result is `T × Option String`; the string is the error
  message and `none` is the nil error.
-/

set_option linter.dupNamespace false

/-! ## Data model -/

/-- A Go `float64`, held as its 64-bit IEEE-754 pattern. -/
structure Float64 where
  bits : Nat
deriving DecidableEq, Repr

/-- The dynamic values (`interface{}`) that occur in a bin map. -/
inductive Value where
  | str (s : String)
  | int (v : Int)
  | int32 (v : Int)
  | uint32 (v : Int)
  | int64 (v : Int)
  | float64 (f : Float64)
  | strings (l : Option (List String))
  | slice (l : List Value)

/-- The type `aero.BinMap`, a `map[string]interface{}`, as an association list. -/
abbrev BinMap := List (String × Value)

/-- The map index expression `binMap[k]`: `none` is the nil interface that Go
returns for a key that is not in the map. -/
def BinMap.get : BinMap → String → Option Value
  | [], _ => none
  | (k, v) :: rest, key => if key = k then some v else BinMap.get rest key

/-- The keys of a bin map. -/
def BinMap.keys (m : BinMap) : List String := m.map Prod.fst

/-- The bin map without the key `key` (Go `delete(m, key)`). -/
def BinMap.erase : BinMap → String → BinMap
  | [], _ => []
  | (k, v) :: rest, key =>
    if key = k then BinMap.erase rest key else (k, v) :: BinMap.erase rest key

/-- The part of `aero.Record` that the codec reads. -/
structure Record where
  Bins : BinMap

/-- Modelled from the spec: the declaration of the record type `Block` is not
among the sources.  `Version` is an `int32`, `Nonce` a `uint32`, `Size` and
`Txcount` are `int64` and `TxidList` is a `[]string`, the types that
`binMapToBlock` assigns to the fields. -/
structure Block where
  Id : String
  Version : Int
  Prehash : String
  Merkleroot : String
  Timestamp : String
  Level : String
  Nonce : Int
  Size : Int
  Txcount : Int
  TxidList : Option (List String)
deriving DecidableEq, Repr

/-- Modelled from the spec: the declaration of the record type `Transaction`
is not among the sources.  `Amount` is a `float64`, the other fields are
strings. -/
structure Transaction where
  Txid : String
  Output : String
  Input : String
  Amount : Float64
  Timestamp : String
  Sign : String
  Pubkey : String
deriving DecidableEq, Repr

/-- Modelled from the spec: the declaration of the record type `Balance` is
not among the sources. -/
structure Balance where
  Address : String
  Balance : Float64
deriving DecidableEq, Repr

/-- Modelled from the spec: the declaration of the record type `Unsettled` is
not among the sources. -/
structure Unsettled where
  Address : String
  Unsettled : Float64
deriving DecidableEq, Repr

/-- The composite literal `Block{}`. -/
def zeroBlock : Block := ⟨"", 0, "", "", "", "", 0, 0, 0, none⟩

/-- The composite literal `Transaction{}`. -/
def zeroTransaction : Transaction := ⟨"", "", "", ⟨0⟩, "", "", ""⟩

/-- The composite literal `Balance{}`. -/
def zeroBalance : Balance := ⟨"", ⟨0⟩⟩

/-- The composite literal `Unsettled{}`. -/
def zeroUnsettled : Unsettled := ⟨"", ⟨0⟩⟩

/-- A Block whose integer fields are within the range of their Go types. -/
def Block.InRange (b : Block) : Prop :=
  (-2147483648 ≤ b.Version ∧ b.Version < 2147483648) ∧
  (0 ≤ b.Nonce ∧ b.Nonce < 4294967296) ∧
  (-9223372036854775808 ≤ b.Size ∧ b.Size < 9223372036854775808) ∧
  (-9223372036854775808 ≤ b.Txcount ∧ b.Txcount < 9223372036854775808)

instance (b : Block) : Decidable b.InRange := by
  unfold Block.InRange; infer_instance

/-! ## Go primitives used by the codec -/

/-- The conversion `int32(v)` of an `int`. -/
def toInt32 (v : Int) : Int := (v + 2147483648) % 4294967296 - 2147483648

/-- The conversion `uint32(v)` of an `int`. -/
def toUint32 (v : Int) : Int := v % 4294967296

/-- The conversion `int64(v)` of an `int`. -/
def toInt64 (v : Int) : Int :=
  (v + 9223372036854775808) % 18446744073709551616 - 9223372036854775808

/-- The position of the highest set bit of `m` (0 for `m < 2`); `fuel` bounds
the number of halvings and `m` itself is always enough. -/
def floorLog2 : Nat → Nat → Nat
  | 0, _ => 0
  | fuel + 1, m => if m < 2 then 0 else floorLog2 fuel (m / 2) + 1

/-- The conversion `float64(v)` of an `int`: the nearest double, ties to even,
as its bit pattern (sign, biased exponent, 52 fraction bits). -/
def toFloat64 (v : Int) : Float64 :=
  let m := v.natAbs
  if m = 0 then ⟨0⟩
  else
    let sign := if v < 0 then 9223372036854775808 else 0
    let e := floorLog2 m m
    if e ≤ 52 then
      ⟨sign + (e + 1023) * 4503599627370496 + (m * 2 ^ (52 - e) - 4503599627370496)⟩
    else
      let shift := e - 52
      let q := m / 2 ^ shift
      let r := m % 2 ^ shift
      let half := 2 ^ (shift - 1)
      let q1 := if r > half ∨ (r = half ∧ q % 2 = 1) then q + 1 else q
      ⟨sign + (e + 1023) * 4503599627370496 + (q1 - 4503599627370496)⟩

/-- The number that a finite double stands for: sign, 11 exponent bits biased
by 1023, 52 fraction bits. -/
def Float64.toRat (f : Float64) : ℚ :=
  let sign : ℚ := if f.bits / 9223372036854775808 % 2 = 1 then -1 else 1
  let e := f.bits / 4503599627370496 % 2048
  let frac := f.bits % 4503599627370496
  if e = 0 then sign * frac * (2 : ℚ) ^ (-1074 : ℤ)
  else sign * (4503599627370496 + frac) * (2 : ℚ) ^ ((e : ℤ) - 1075)

/-- The type assertion `x.(string)`. -/
def asString : Option Value → Option String
  | some (.str s) => some s
  | _ => none

/-- The type assertion `x.(int)`. -/
def asInt : Option Value → Option Int
  | some (.int v) => some v
  | _ => none

/-- The type assertion `x.(float64)`. -/
def asFloat64 : Option Value → Option Float64
  | some (.float64 f) => some f
  | _ => none

/-- The type assertion `x.([]interface{})`. -/
def asSlice : Option Value → Option (List Value)
  | some (.slice l) => some l
  | _ => none

/-- The builtin `append(s, x)` on a `[]string`. -/
def appendString (s : Option (List String)) (x : String) : Option (List String) :=
  some (s.getD [] ++ [x])

/-- A `[32]byte`, the result type of `sha256.Sum256`. -/
abbrev Digest := { l : List (Fin 256) // l.length = 32 }

/-- The digit table `ldigits` of Go's `fmt` package. -/
def ldigits : List Char := "0123456789abcdefx".data

/-- The byte loop of `fmt` for the verb `%x`: every byte `c` is written as the
two digits `ldigits[c>>4]` and `ldigits[c&0xF]`. -/
def fmtSbx : List (Fin 256) → List Char
  | [] => []
  | c :: rest =>
    ldigits.getD (c.val >>> 4) '0' :: ldigits.getD (c.val &&& 15) '0' :: fmtSbx rest

/-- The call `fmt.Sprintf("%x", checksum)` on a `[32]byte`. -/
def sprintfHex (checksum : Digest) : String := String.mk (fmtSbx checksum.val)

/-- The value of a lower-case hexadecimal digit: 0 to 9 for the characters `0`
to `9` and 10 to 15 for `a` to `f`. -/
def hexDigitValue (c : Char) : Option Nat :=
  if 48 ≤ c.toNat ∧ c.toNat ≤ 57 then some (c.toNat - 48)
  else if 97 ≤ c.toNat ∧ c.toNat ≤ 102 then some (c.toNat - 87)
  else none

/-- The bytes that a string of lower-case hexadecimal digits stands for, two
digits per byte, the high one first; `none` when a character is not such a
digit or the number of characters is odd. -/
def hexDecode : List Char → Option (List Nat)
  | [] => some []
  | [_] => none
  | hi :: lo :: rest =>
    match hexDigitValue hi, hexDigitValue lo, hexDecode rest with
    | some h, some l, some bytes => some ((16 * h + l) :: bytes)
    | _, _, _ => none

/-- The SHA-256 digest of the three bytes `abc`. -/
def abcDigest : Digest :=
  ⟨[0xba, 0x78, 0x16, 0xbf, 0x8f, 0x01, 0xcf, 0xea, 0x41, 0x41, 0x40, 0xde, 0x5d, 0xae, 0x22,
    0x23, 0xb0, 0x03, 0x61, 0xa3, 0x96, 0x17, 0x7a, 0x9c, 0xb4, 0x10, 0xff, 0x61, 0xf2, 0x00,
    0x15, 0xad], rfl⟩

/-! ## The codec of `util.go` (package `utari`) -/

namespace utari

/-- Function `GetHash` of `util.go`.  `jsonMarshal` is `json.Marshal` at the
type of `v` and `sum256` is `sha256.Sum256`; the result `none` is the
`panic(err)` of a failed serialization. -/
def GetHash {α : Type} (jsonMarshal : α → Except String (List (Fin 256)))
    (sum256 : List (Fin 256) → Digest) (v : α) : Option String :=
  match jsonMarshal v with
  | .error _ => none
  | .ok byteData =>
    let checksum := sum256 byteData
    let hash := sprintfHex checksum
    some hash

/-- Encoder `blockToBinMap` of `util.go`: every attribute under its own name,
with the dynamic type of the attribute. -/
def blockToBinMap (b : Block) : BinMap :=
  [ ("Id", .str b.Id),
    ("Version", .int32 b.Version),
    ("Prehash", .str b.Prehash),
    ("Merkleroot", .str b.Merkleroot),
    ("Timestamp", .str b.Timestamp),
    ("Level", .str b.Level),
    ("Nonce", .uint32 b.Nonce),
    ("Size", .int64 b.Size),
    ("Txcount", .int64 b.Txcount),
    ("TxidList", .strings b.TxidList) ]

/-- Encoder `transactionToBinMap` of `util.go`. -/
def transactionToBinMap (t : Transaction) : BinMap :=
  [ ("Txid", .str t.Txid),
    ("Output", .str t.Output),
    ("Input", .str t.Input),
    ("Amount", .float64 t.Amount),
    ("Timestamp", .str t.Timestamp),
    ("Sign", .str t.Sign),
    ("Pubkey", .str t.Pubkey) ]

/-- The loop of `binMapToBlock` over the elements of `TxidList`, started with
the slice built so far: `none` when an element is not a string (the function
returns from inside the loop), otherwise the slice after the last append. -/
def txidLoop : List Value → Option (List String) → Option (Option (List String))
  | [], txidList => some txidList
  | value :: rest, txidList =>
    match asString (some value) with
    | none => none
    | some txid => txidLoop rest (appendString txidList txid)

/-- Decoder `binMapToBlock` of `util.go`. -/
def binMapToBlock (record : Record) : Block × Option String :=
  let block := zeroBlock
  let binMap := record.Bins
  match asString (binMap.get "Id") with
  | none => (zeroBlock, some "failed Id assertion")
  | some id =>
  let block := { block with Id := id }
  match asInt (binMap.get "Version") with
  | none => (zeroBlock, some "failed Version assertion")
  | some version =>
  let block := { block with Version := toInt32 version }
  match asString (binMap.get "Prehash") with
  | none => (zeroBlock, some "failed Prehash assertion")
  | some prehash =>
  let block := { block with Prehash := prehash }
  match asString (binMap.get "Merkleroot") with
  | none => (zeroBlock, some "failed Merkleroot assertion")
  | some merkleroot =>
  let block := { block with Merkleroot := merkleroot }
  match asString (binMap.get "Timestamp") with
  | none => (zeroBlock, some "failed Timestamp assertion")
  | some timestamp =>
  let block := { block with Timestamp := timestamp }
  match asString (binMap.get "Level") with
  | none => (zeroBlock, some "failed Level assertion")
  | some level =>
  let block := { block with Level := level }
  match asInt (binMap.get "Nonce") with
  | none => (zeroBlock, some "failed Nonce assertion")
  | some nonce =>
  let block := { block with Nonce := toUint32 nonce }
  match asInt (binMap.get "Size") with
  | none => (zeroBlock, some "failed Size assertion")
  | some size =>
  let block := { block with Size := toInt64 size }
  match asInt (binMap.get "Txcount") with
  | none => (zeroBlock, some "failed Txcount assertion")
  | some txcount =>
  let block := { block with Txcount := toInt64 txcount }
  match asSlice (binMap.get "TxidList") with
  | none => (zeroBlock, some "failed TxidList assertion")
  | some interfaceSlice =>
  match txidLoop interfaceSlice none with
  | none => (zeroBlock, some "failed TxidList assertion")
  | some txidList =>
  let block := { block with TxidList := txidList }
  (block, none)

/-- Decoder `binMapToTransaction` of `util.go`: `Amount` may be a `float64` or
an `int`. -/
def binMapToTransaction (record : Record) : Transaction × Option String :=
  let tx := zeroTransaction
  let binMap := record.Bins
  match asString (binMap.get "Txid") with
  | none => (zeroTransaction, some "failed Txid assertion")
  | some txid =>
  let tx := { tx with Txid := txid }
  match asString (binMap.get "Output") with
  | none => (zeroTransaction, some "failed output assertion")
  | some output =>
  let tx := { tx with Output := output }
  match asString (binMap.get "Input") with
  | none => (zeroTransaction, some "failed input assertion")
  | some input =>
  let tx := { tx with Input := input }
  match (match asFloat64 (binMap.get "Amount") with
         | some amountFloat => some amountFloat
         | none =>
           match asInt (binMap.get "Amount") with
           | none => none
           | some amountInt => some (toFloat64 amountInt)) with
  | none => (zeroTransaction, some "failed Amount assertion")
  | some amountFloat =>
  let tx := { tx with Amount := amountFloat }
  match asString (binMap.get "Timestamp") with
  | none => (zeroTransaction, some "failed Timestamp assertion")
  | some timestamp =>
  let tx := { tx with Timestamp := timestamp }
  match asString (binMap.get "Sign") with
  | none => (zeroTransaction, some "failed sign assertion")
  | some sign =>
  let tx := { tx with Sign := sign }
  match asString (binMap.get "Pubkey") with
  | none => (zeroTransaction, some "failed pubkey assertion")
  | some pubkey =>
  let tx := { tx with Pubkey := pubkey }
  (tx, none)

/-- Decoder `binMapToBalance` of `util.go`. -/
def binMapToBalance (record : Record) : Balance × Option String :=
  let balance := zeroBalance
  let binMap := record.Bins
  match (match asFloat64 (binMap.get "Balance") with
         | some balanceFloat => some balanceFloat
         | none =>
           match asInt (binMap.get "Balance") with
           | none => none
           | some balanceInt => some (toFloat64 balanceInt)) with
  | none => (zeroBalance, some "failed Balance assertion")
  | some balanceFloat =>
  let balance := { balance with Balance := balanceFloat }
  match asString (binMap.get "Address") with
  | none => (zeroBalance, some "failed Address assertion")
  | some address =>
  let balance := { balance with Address := address }
  (balance, none)

/-- Encoder `balanceToBinMap` of `util.go`. -/
def balanceToBinMap (b : Balance) : BinMap :=
  [ ("Address", .str b.Address),
    ("Balance", .float64 b.Balance) ]

/-- Decoder `binMapToUnsettled` of `util.go`. -/
def binMapToUnsettled (record : Record) : Unsettled × Option String :=
  let unsettled := zeroUnsettled
  let binMap := record.Bins
  match (match asFloat64 (binMap.get "Unsettled") with
         | some unsettledFloat => some unsettledFloat
         | none =>
           match asInt (binMap.get "Unsettled") with
           | none => none
           | some unsettledInt => some (toFloat64 unsettledInt)) with
  | none => (zeroUnsettled, some "failed Unssetled assertion")
  | some unsettledFloat =>
  let unsettled := { unsettled with Unsettled := unsettledFloat }
  match asString (binMap.get "Address") with
  | none => (zeroUnsettled, some "failed Address assertion")
  | some address =>
  let unsettled := { unsettled with Address := address }
  (unsettled, none)

/-- Encoder `unsettledToBinMap` of `util.go`. -/
def unsettledToBinMap (b : Unsettled) : BinMap :=
  [ ("Address", .str b.Address),
    ("Unsettled", .float64 b.Unsettled) ]

end utari

/-! ## The client of `main.go` (package `main`) -/

/-- The part of `aero.Key` that identifies a record: namespace, set (table)
and user key. -/
structure Key where
  ns : String
  setName : String
  userKey : String
deriving DecidableEq, Repr

/-- The library functions that `main.go` calls, over a store state `σ`:
`json.Marshal` at the two record types, `sha256.Sum256`, `aero.NewKey`, and
the `Put`, `Get` and `Delete` methods of `aero.Client`.  A `*Key` or `*Record`
is an `Option` (`none` is the nil pointer) and an `error` is an
`Option String`. -/
structure Aero (σ : Type) where
  marshalBlock : Block → Except String (List (Fin 256))
  marshalTransaction : Transaction → Except String (List (Fin 256))
  Sum256 : List (Fin 256) → Digest
  NewKey : String → String → String → Option Key × Option String
  Put : Option Key → BinMap → σ → Option String × σ
  Get : Option Key → σ → (Option Record × Option String) × σ
  Delete : Option Key → σ → (Bool × Option String) × σ

namespace main

/-- Constant `AEROSPIKE_NAMESPACE`. -/
def AEROSPIKE_NAMESPACE : String := "test"

/-- Constant `AEROSPIKE_BLOCL_TABLE`. -/
def AEROSPIKE_BLOCL_TABLE : String := "BlockTable"

/-- Function `getBlockKey` of `main.go`. -/
def getBlockKey {σ : Type} (A : Aero σ) (hash : String) : Option Key × Option String :=
  match A.NewKey AEROSPIKE_NAMESPACE AEROSPIKE_BLOCL_TABLE hash with
  | (_, some err) => (none, some err)
  | (key, none) => (key, none)

/-- Function `getHash` of `main.go`; the result `none` is the `panic(err)` of a
failed serialization. -/
def getHash {α : Type} (jsonMarshal : α → Except String (List (Fin 256)))
    (sum256 : List (Fin 256) → Digest) (v : α) : Option String :=
  match jsonMarshal v with
  | .error _ => none
  | .ok byteData =>
    let checksum := sum256 byteData
    let hash := sprintfHex checksum
    some hash

/-- Encoder `blockToBinMap` of `main.go`. -/
def blockToBinMap (b : Block) : BinMap :=
  [ ("Id", .str b.Id),
    ("Version", .int32 b.Version),
    ("Prehash", .str b.Prehash),
    ("Merkleroot", .str b.Merkleroot),
    ("Timestamp", .str b.Timestamp),
    ("Level", .str b.Level),
    ("Nonce", .uint32 b.Nonce),
    ("Size", .int64 b.Size),
    ("Txcount", .int64 b.Txcount),
    ("TxidList", .strings b.TxidList) ]

/-- Encoder `transactionToBinMap` of `main.go`. -/
def transactionToBinMap (t : Transaction) : BinMap :=
  [ ("Txid", .str t.Txid),
    ("Output", .str t.Output),
    ("Input", .str t.Input),
    ("Amount", .float64 t.Amount),
    ("Timestamp", .str t.Timestamp),
    ("Sign", .str t.Sign),
    ("Pubkey", .str t.Pubkey) ]

/-- The loop of `binMapToBlock` (`main.go`) over the elements of `TxidList`. -/
def txidLoop : List Value → Option (List String) → Option (Option (List String))
  | [], txidList => some txidList
  | value :: rest, txidList =>
    match asString (some value) with
    | none => none
    | some txid => txidLoop rest (appendString txidList txid)

/-- Decoder `binMapToBlock` of `main.go`. -/
def binMapToBlock (record : Record) : Block × Option String :=
  let block := zeroBlock
  let binMap := record.Bins
  match asString (binMap.get "Id") with
  | none => (zeroBlock, some "failed Id assertion")
  | some id =>
  let block := { block with Id := id }
  match asInt (binMap.get "Version") with
  | none => (zeroBlock, some "failed Version assertion")
  | some version =>
  let block := { block with Version := toInt32 version }
  match asString (binMap.get "Prehash") with
  | none => (zeroBlock, some "failed Prehash assertion")
  | some prehash =>
  let block := { block with Prehash := prehash }
  match asString (binMap.get "Merkleroot") with
  | none => (zeroBlock, some "failed Merkleroot assertion")
  | some merkleroot =>
  let block := { block with Merkleroot := merkleroot }
  match asString (binMap.get "Timestamp") with
  | none => (zeroBlock, some "failed Timestamp assertion")
  | some timestamp =>
  let block := { block with Timestamp := timestamp }
  match asString (binMap.get "Level") with
  | none => (zeroBlock, some "failed Level assertion")
  | some level =>
  let block := { block with Level := level }
  match asInt (binMap.get "Nonce") with
  | none => (zeroBlock, some "failed Nonce assertion")
  | some nonce =>
  let block := { block with Nonce := toUint32 nonce }
  match asInt (binMap.get "Size") with
  | none => (zeroBlock, some "failed Size assertion")
  | some size =>
  let block := { block with Size := toInt64 size }
  match asInt (binMap.get "Txcount") with
  | none => (zeroBlock, some "failed Txcount assertion")
  | some txcount =>
  let block := { block with Txcount := toInt64 txcount }
  match asSlice (binMap.get "TxidList") with
  | none => (zeroBlock, some "failed TxidList assertion")
  | some interfaceSlice =>
  match txidLoop interfaceSlice none with
  | none => (zeroBlock, some "failed TxidList assertion")
  | some txidList =>
  let block := { block with TxidList := txidList }
  (block, none)

/-- Decoder `binMapToTransaction` of `main.go`: `Amount` must be a `float64`. -/
def binMapToTransaction (record : Record) : Transaction × Option String :=
  let tx := zeroTransaction
  let binMap := record.Bins
  match asString (binMap.get "Txid") with
  | none => (zeroTransaction, some "failed Txid assertion")
  | some txid =>
  let tx := { tx with Txid := txid }
  match asString (binMap.get "Output") with
  | none => (zeroTransaction, some "failed output assertion")
  | some output =>
  let tx := { tx with Output := output }
  match asString (binMap.get "Input") with
  | none => (zeroTransaction, some "failed input assertion")
  | some input =>
  let tx := { tx with Input := input }
  match asFloat64 (binMap.get "Amount") with
  | none => (zeroTransaction, some "failed Amount assertion")
  | some amount =>
  let tx := { tx with Amount := amount }
  match asString (binMap.get "Timestamp") with
  | none => (zeroTransaction, some "failed Timestamp assertion")
  | some timestamp =>
  let tx := { tx with Timestamp := timestamp }
  match asString (binMap.get "Sign") with
  | none => (zeroTransaction, some "failed sign assertion")
  | some sign =>
  let tx := { tx with Sign := sign }
  match asString (binMap.get "Pubkey") with
  | none => (zeroTransaction, some "failed pubkey assertion")
  | some pubkey =>
  let tx := { tx with Pubkey := pubkey }
  (tx, none)

/-- Method `PutBlock`.  The outer `Option` is `none` when the call panics. -/
def PutBlock {σ : Type} (A : Aero σ) (block : Block) (s : σ) : Option (Option String × σ) :=
  match getHash A.marshalBlock A.Sum256 block with
  | none => none
  | some hash =>
  match getBlockKey A hash with
  | (_, some err) => some (some err, s)
  | (key, none) =>
  let data := blockToBinMap block
  match A.Put key data s with
  | (some err, s) => some (some err, s)
  | (none, s) => some (none, s)

/-- Method `GetBlock`.  A nil record returned without an error makes
`binMapToBlock` dereference nil: the call panics (`none`). -/
def GetBlock {σ : Type} (A : Aero σ) (hash : String) (s : σ) :
    Option ((Block × Option String) × σ) :=
  match getBlockKey A hash with
  | (_, some err) => some ((zeroBlock, some err), s)
  | (key, none) =>
  match A.Get key s with
  | ((_, some err), s) => some ((zeroBlock, some err), s)
  | ((none, none), _) => none
  | ((some record, none), s) =>
  match binMapToBlock record with
  | (_, some err) => some ((zeroBlock, some err), s)
  | (block, none) => some ((block, none), s)

/-- Method `DeleteBlock`: the error of `getBlockKey` is overwritten by the
result of `Delete` before it is looked at. -/
def DeleteBlock {σ : Type} (A : Aero σ) (hash : String) (s : σ) : Option (Option String × σ) :=
  match getBlockKey A hash with
  | (key, _) =>
  match A.Delete key s with
  | ((_, some err), s) => some (some err, s)
  | ((_, none), s) => some (none, s)

end main

namespace main

/-- The local variable `block` of function `main`. -/
def block : Block :=
  { Id := "testid", Version := 12, Prehash := "testprehash", Merkleroot := "testmerkleroot",
    Timestamp := "test_timestamp", Level := "test_level", Nonce := 123, Size := 1234,
    Txcount := 12345, TxidList := some ["testid1", "testid2"] }

/-- The local variable `tx` of function `main`; 12.34 is the double with the
bit pattern 0x4028AE147AE147AE. -/
def tx : Transaction :=
  { Txid := "testtxid", Output := "testoutput", Input := "testinput",
    Amount := ⟨0x4028AE147AE147AE⟩, Timestamp := "test_timestamp", Sign := "test_sign",
    Pubkey := "test_pubkey" }

end main

/-! ## The store as explicit state -/

mutual
/-- The value that the store hands back for a value written to a bin: the
Aerospike client returns every integer bin as an `int` and every list bin as a
`[]interface{}`, whatever Go type was written; strings and doubles come back
as they went in. -/
def wireValue : Value → Value
  | .str s => .str s
  | .int v => .int v
  | .int32 v => .int v
  | .uint32 v => .int v
  | .int64 v => .int v
  | .float64 f => .float64 f
  | .strings l => .slice ((l.getD []).map Value.str)
  | .slice l => .slice (wireList l)
/-- The elements of a list bin, each as the store hands it back. -/
def wireList : List Value → List Value
  | [] => []
  | v :: rest => wireValue v :: wireList rest
end

/-- A bin map with every value passed through `repr`. -/
def BinMap.mapValues (repr : Value → Value) (m : BinMap) : BinMap :=
  m.map (fun kv => (kv.1, repr kv.2))

/-- A call received by the store. -/
inductive Call where
  | put (key : Option Key) (bins : BinMap)
  | get (key : Option Key)
  | delete (key : Option Key)

/-- The store: a map from (namespace, set, user key) to bin map, and the log
of the calls it has received. -/
structure Store where
  records : List (Key × BinMap)
  calls : List Call

/-- The store with no record and no call. -/
def Store.empty : Store := ⟨[], []⟩

/-- The bin map stored at `key`. -/
def Store.find : List (Key × BinMap) → Key → Option BinMap
  | [], _ => none
  | (k, bins) :: rest, key => if key = k then some bins else Store.find rest key

/-- The records other than the one at `key`. -/
def Store.remove : List (Key × BinMap) → Key → List (Key × BinMap)
  | [], _ => []
  | (k, bins) :: rest, key =>
    if key = k then Store.remove rest key else (k, bins) :: Store.remove rest key

/-- Store operation `Put`: the bins are kept as `repr` represents them and
replace what was at the key.  A nil key is refused. -/
def Store.put (repr : Value → Value) (key : Option Key) (bins : BinMap) (s : Store) :
    Option String × Store :=
  let calls := s.calls ++ [Call.put key bins]
  match key with
  | none => (some "invalid key", { s with calls := calls })
  | some k =>
    (none, { records := (k, bins.mapValues repr) :: Store.remove s.records k, calls := calls })

/-- Store operation `Get`: fails on an absent key. -/
def Store.get (key : Option Key) (s : Store) : (Option Record × Option String) × Store :=
  let s1 := { s with calls := s.calls ++ [Call.get key] }
  match key with
  | none => ((none, some "invalid key"), s1)
  | some k =>
    match Store.find s.records k with
    | none => ((none, some "key not found"), s1)
    | some bins => ((some ⟨bins⟩, none), s1)

/-- Store operation `Delete`: reports whether the key existed. -/
def Store.delete (key : Option Key) (s : Store) : (Bool × Option String) × Store :=
  let calls := s.calls ++ [Call.delete key]
  match key with
  | none => ((false, some "invalid key"), { s with calls := calls })
  | some k =>
    (((Store.find s.records k).isSome, none),
      { records := Store.remove s.records k, calls := calls })

/-- The libraries over the explicit store; `NewKey` accepts the keys that
`accept` accepts and refuses the others. -/
def storeAero (repr : Value → Value) (accept : String → Bool)
    (marshalBlock : Block → Except String (List (Fin 256)))
    (marshalTransaction : Transaction → Except String (List (Fin 256)))
    (sum256 : List (Fin 256) → Digest) : Aero Store :=
  { marshalBlock := marshalBlock
    marshalTransaction := marshalTransaction
    Sum256 := sum256
    NewKey := fun ns setName key =>
      if accept key then (some ⟨ns, setName, key⟩, none) else (none, some "invalid key value")
    Put := Store.put repr
    Get := Store.get
    Delete := Store.delete }

/-- A serializer to run the client with: the bytes of the record's `Id`. -/
def sampleMarshalBlock (b : Block) : Except String (List (Fin 256)) :=
  .ok (b.Id.data.map (fun c => Fin.ofNat c.toNat))

/-- A serializer to run the client with: the bytes of the record's `Txid`. -/
def sampleMarshalTransaction (t : Transaction) : Except String (List (Fin 256)) :=
  .ok (t.Txid.data.map (fun c => Fin.ofNat c.toNat))

/-- A digest function to run the client with: the first 32 bytes of the data,
filled up with zeros. -/
def sampleSum256 (data : List (Fin 256)) : Digest :=
  ⟨(data ++ List.replicate 32 0).take 32, by simp⟩

/-! ## Vocabulary of the statements -/

/-- The map holds a string under `k`. -/
def BinMap.holdsString (m : BinMap) (k : String) : Prop := ∃ s, m.get k = some (.str s)

/-- The map holds an `int` under `k`. -/
def BinMap.holdsInt (m : BinMap) (k : String) : Prop := ∃ v, m.get k = some (.int v)

/-- The value is a string. -/
def Value.isString : Value → Bool
  | .str _ => true
  | _ => false

/-- The message `msg` contains `name` as a substring (`strings.Contains`). -/
def mentions (msg name : String) : Prop := name.data <:+: msg.data

instance (msg name : String) : Decidable (mentions msg name) := by
  unfold mentions; infer_instance

/-- The declared attribute names of a Block. -/
def blockFields : List String :=
  ["Id", "Version", "Prehash", "Merkleroot", "Timestamp", "Level", "Nonce", "Size", "Txcount",
    "TxidList"]

/-- The declared attribute names of a Transaction. -/
def transactionFields : List String :=
  ["Txid", "Output", "Input", "Amount", "Timestamp", "Sign", "Pubkey"]

/-- The declared attribute names of a Balance. -/
def balanceFields : List String := ["Address", "Balance"]

/-- The declared attribute names of an Unsettled. -/
def unsettledFields : List String := ["Address", "Unsettled"]

/-- The error messages of a decoder on the map `m` with one required key
taken out, for each key of `fields` in turn. -/
def missingKeyErrors {α : Type} (decode : Record → α × Option String) (m : BinMap)
    (fields : List String) : List (String × Option String) :=
  fields.map (fun k => (k, (decode ⟨m.erase k⟩).2))

/-- The keys of `fields` whose missing-key error fails to contain the key. -/
def unnamedKeys {α : Type} (decode : Record → α × Option String) (m : BinMap)
    (fields : List String) : List String :=
  fields.filter (fun k =>
    match (decode ⟨m.erase k⟩).2 with
    | none => true
    | some msg => decide (¬ mentions msg k))

/-- The end-to-end scenario on a Block: put the block, compute its key, get by
key, delete by key, get by key again.  The result lists what the four client
calls returned; it is `none` when a call panics. -/
def blockScenario {σ : Type} (A : Aero σ) (b : Block) (s : σ) :
    Option (Option String × (Block × Option String) × Option String × (Block × Option String)) :=
  match main.PutBlock A b s with
  | none => none
  | some (putErr, s1) =>
  match main.getHash A.marshalBlock A.Sum256 b with
  | none => none
  | some blockHash =>
  match main.GetBlock A blockHash s1 with
  | none => none
  | some (blockRecv, s2) =>
  match main.DeleteBlock A blockHash s2 with
  | none => none
  | some (deleteErr, s3) =>
  match main.GetBlock A blockHash s3 with
  | none => none
  | some (blockGone, _) => some (putErr, blockRecv, deleteErr, blockGone)

/-! ## Vocabulary of the decoder statements -/

/-- The value is an `int`. -/
def Value.isInt : Value → Bool
  | .int _ => true
  | _ => false

/-- The value is a `float64`. -/
def Value.isFloat64 : Value → Bool
  | .float64 _ => true
  | _ => false

/-- The map holds, under `k`, a `[]interface{}` all of whose elements are
strings. -/
def BinMap.holdsStringSlice (m : BinMap) (k : String) : Prop :=
  ∃ l, m.get k = some (.slice l) ∧ ∀ v ∈ l, v.isString = true

/-- The field map is valid for a Block: the five string fields hold strings,
the four integer fields hold an `int`, and `TxidList` holds a sequence of
strings. -/
def validBlockMap (m : BinMap) : Prop :=
  m.holdsString "Id" ∧ m.holdsString "Prehash" ∧ m.holdsString "Merkleroot" ∧
  m.holdsString "Timestamp" ∧ m.holdsString "Level" ∧
  m.holdsInt "Version" ∧ m.holdsInt "Nonce" ∧ m.holdsInt "Size" ∧ m.holdsInt "Txcount" ∧
  m.holdsStringSlice "TxidList"

/-- What a decoder requires of a field. -/
inductive FieldKind where
  | string
  | integer
  | number
  | stringSlice
deriving DecidableEq, Repr

/-- The lookup result is acceptable for a field of the given kind: a string;
an `int`; a `float64` or an `int`; a `[]interface{}` of strings. -/
def FieldKind.admits : FieldKind → Option Value → Bool
  | .string, some v => v.isString
  | .integer, some v => v.isInt
  | .number, some v => v.isFloat64 || v.isInt
  | .stringSlice, some (.slice l) => l.all Value.isString
  | _, _ => false

/-- The error of the earliest field, in the order of `checks`, that the map
lacks or holds with the wrong type; `none` when every field passes. -/
def firstFailure : List (String × FieldKind × String) → BinMap → Option String
  | [], _ => none
  | (k, kind, msg) :: rest, m =>
    if kind.admits (m.get k) then firstFailure rest m else some msg

/-- The check order of `binMapToBlock` with the error of each field. -/
def blockChecks : List (String × FieldKind × String) :=
  [ ("Id", .string, "failed Id assertion"),
    ("Version", .integer, "failed Version assertion"),
    ("Prehash", .string, "failed Prehash assertion"),
    ("Merkleroot", .string, "failed Merkleroot assertion"),
    ("Timestamp", .string, "failed Timestamp assertion"),
    ("Level", .string, "failed Level assertion"),
    ("Nonce", .integer, "failed Nonce assertion"),
    ("Size", .integer, "failed Size assertion"),
    ("Txcount", .integer, "failed Txcount assertion"),
    ("TxidList", .stringSlice, "failed TxidList assertion") ]

/-- The check order of `binMapToTransaction` with the error of each field. -/
def transactionChecks : List (String × FieldKind × String) :=
  [ ("Txid", .string, "failed Txid assertion"),
    ("Output", .string, "failed output assertion"),
    ("Input", .string, "failed input assertion"),
    ("Amount", .number, "failed Amount assertion"),
    ("Timestamp", .string, "failed Timestamp assertion"),
    ("Sign", .string, "failed sign assertion"),
    ("Pubkey", .string, "failed pubkey assertion") ]

/-- The check order of `binMapToBalance` with the error of each field. -/
def balanceChecks : List (String × FieldKind × String) :=
  [ ("Balance", .number, "failed Balance assertion"),
    ("Address", .string, "failed Address assertion") ]

/-- The check order of `binMapToUnsettled` with the error of each field. -/
def unsettledChecks : List (String × FieldKind × String) :=
  [ ("Unsettled", .number, "failed Unssetled assertion"),
    ("Address", .string, "failed Address assertion") ]

/-- The integer is a value of the 64-bit type `int`. -/
def IsInt64 (v : Int) : Prop := -9223372036854775808 ≤ v ∧ v < 9223372036854775808

instance (v : Int) : Decidable (IsInt64 v) := by
  unfold IsInt64; infer_instance

/-- A valid field map for a Block with `Version` 2^31, `Nonce` -1, `Size` the
largest and `Txcount` the smallest `int`. -/
def wrapBins : BinMap :=
  [ ("Id", .str "testid"), ("Version", .int 2147483648), ("Prehash", .str "testprehash"),
    ("Merkleroot", .str "testmerkleroot"), ("Timestamp", .str "test_timestamp"),
    ("Level", .str "test_level"), ("Nonce", .int (-1)), ("Size", .int 9223372036854775807),
    ("Txcount", .int (-9223372036854775808)),
    ("TxidList", .slice [.str "testid1", .str "testid2"]) ]

/-- The field map of the Block of `main` as the store returns it. -/
def storedBlockBins : BinMap := (utari.blockToBinMap main.block).mapValues wireValue

/-! ## Lemmas -/

/-- An `int` within the `int32` range is unchanged by `int32(v)`. -/
theorem toInt32_of_inRange (v : Int) (h1 : -2147483648 ≤ v) (h2 : v < 2147483648) :
    toInt32 v = v := by
  unfold toInt32; omega

/-- An `int` within the `uint32` range is unchanged by `uint32(v)`. -/
theorem toUint32_of_inRange (v : Int) (h1 : 0 ≤ v) (h2 : v < 4294967296) :
    toUint32 v = v := by
  unfold toUint32; omega

/-- An `int` within the `int64` range is unchanged by `int64(v)`. -/
theorem toInt64_of_inRange (v : Int) (h1 : -9223372036854775808 ≤ v)
    (h2 : v < 9223372036854775808) : toInt64 v = v := by
  unfold toInt64; omega

/-- The element loop on a sequence of strings appends them all. -/
theorem utari_txidLoop_strings (l : List String) (acc : Option (List String)) :
    utari.txidLoop (l.map Value.str) acc
      = some (if l = [] then acc else some (acc.getD [] ++ l)) := by
  induction l generalizing acc with
  | nil => simp [utari.txidLoop]
  | cons x rest ih =>
    simp only [List.map_cons, utari.txidLoop, asString, ih, appendString]
    cases rest <;> simp

/-- The element loop on the stored form of a `[]string`: the slice comes back,
an empty one as the nil slice. -/
theorem utari_txidLoop_stored (l : Option (List String)) :
    utari.txidLoop ((l.getD []).map Value.str) none
      = some (if l = some [] then none else l) := by
  rw [utari_txidLoop_strings]
  cases l with
  | none => simp
  | some l =>
    cases l with
    | nil => simp
    | cons x r => simp

/-- The element loop fails as soon as one element is not a string. -/
theorem utari_txidLoop_bad (l : List Value) (acc : Option (List String))
    (h : ∃ v ∈ l, v.isString = false) : utari.txidLoop l acc = none := by
  induction l generalizing acc with
  | nil => simp at h
  | cons x rest ih =>
    cases x with
    | str s =>
      have h2 : ∃ v ∈ rest, v.isString = false := by
        obtain ⟨v, hv, hb⟩ := h
        rcases List.mem_cons.mp hv with rfl | hv
        · simp [Value.isString] at hb
        · exact ⟨v, hv, hb⟩
      simp only [utari.txidLoop, asString]
      exact ih _ h2
    | _ => simp [utari.txidLoop, asString]

/-- The result of `utari.binMapToBlock` on a map whose ten lookups are known. -/
theorem utari_binMapToBlock_of_fields (m : BinMap)
    (id prehash merkleroot timestamp level : String) (version nonce size txcount : Int)
    (l : List Value) (txidList : Option (List String))
    (h1 : m.get "Id" = some (.str id)) (h2 : m.get "Version" = some (.int version))
    (h3 : m.get "Prehash" = some (.str prehash))
    (h4 : m.get "Merkleroot" = some (.str merkleroot))
    (h5 : m.get "Timestamp" = some (.str timestamp)) (h6 : m.get "Level" = some (.str level))
    (h7 : m.get "Nonce" = some (.int nonce)) (h8 : m.get "Size" = some (.int size))
    (h9 : m.get "Txcount" = some (.int txcount)) (h10 : m.get "TxidList" = some (.slice l))
    (hl : utari.txidLoop l none = some txidList) :
    utari.binMapToBlock ⟨m⟩ =
      (⟨id, toInt32 version, prehash, merkleroot, timestamp, level, toUint32 nonce,
        toInt64 size, toInt64 txcount, txidList⟩, none) := by
  simp only [utari.binMapToBlock, h1, h2, h3, h4, h5, h6, h7, h8, h9, h10, hl, asString, asInt,
    asSlice, zeroBlock]

/-- Decoding the stored form of an encoded Block gives the Block back, an empty
`TxidList` as the nil slice. -/
theorem utari_decode_stored (b : Block) (hr : b.InRange) :
    utari.binMapToBlock ⟨(utari.blockToBinMap b).mapValues wireValue⟩
      = ({ b with TxidList := if b.TxidList = some [] then none else b.TxidList }, none) := by
  obtain ⟨⟨hv1, hv2⟩, ⟨hn1, hn2⟩, ⟨hs1, hs2⟩, ⟨ht1, ht2⟩⟩ := hr
  rw [utari_binMapToBlock_of_fields ((utari.blockToBinMap b).mapValues wireValue) b.Id b.Prehash
    b.Merkleroot b.Timestamp b.Level b.Version
    b.Nonce b.Size b.Txcount ((b.TxidList.getD []).map Value.str) _ rfl rfl rfl rfl rfl rfl rfl
    rfl rfl rfl (utari_txidLoop_stored b.TxidList),
    toInt32_of_inRange _ hv1 hv2, toUint32_of_inRange _ hn1 hn2, toInt64_of_inRange _ hs1 hs2,
    toInt64_of_inRange _ ht1 ht2]

/-- The two copies of the element loop agree. -/
theorem main_txidLoop_eq (l : List Value) (acc : Option (List String)) :
    main.txidLoop l acc = utari.txidLoop l acc := by
  induction l generalizing acc with
  | nil => rfl
  | cons x rest ih =>
    simp only [main.txidLoop, utari.txidLoop]
    cases asString (some x) with
    | none => rfl
    | some txid => exact ih _

/-- The two copies of `binMapToBlock` agree. -/
theorem main_binMapToBlock_eq (record : Record) :
    main.binMapToBlock record = utari.binMapToBlock record := by
  simp only [main.binMapToBlock, utari.binMapToBlock, main_txidLoop_eq]

/-- A removed key is not found. -/
theorem store_find_remove (recs : List (Key × BinMap)) (k : Key) :
    Store.find (Store.remove recs k) k = none := by
  induction recs with
  | nil => rfl
  | cons r rest ih =>
    obtain ⟨k1, bins⟩ := r
    by_cases h : k = k1
    · simp [Store.remove, h]; rw [← h]; exact ih
    · simp [Store.remove, Store.find, h, ih]

/-- The first sixteen entries of the digit table are the lower-case
hexadecimal digits. -/
theorem ldigits_hex (n : Nat) (h : n < 16) :
    ldigits.getD n '0' ∈ "0123456789abcdef".data := by
  interval_cases n <;> decide

/-- Two characters are written per byte. -/
theorem fmtSbx_length (l : List (Fin 256)) : (fmtSbx l).length = 2 * l.length := by
  induction l with
  | nil => rfl
  | cons c rest ih => simp only [fmtSbx, List.length_cons, ih]; omega

/-- Every character written for a byte sequence is a lower-case hexadecimal
digit. -/
theorem fmtSbx_hex (l : List (Fin 256)) :
    ∀ c ∈ fmtSbx l, c ∈ "0123456789abcdef".data := by
  induction l with
  | nil => intro c hc; simp [fmtSbx] at hc
  | cons b rest ih =>
    intro c hc
    simp only [fmtSbx, List.mem_cons] at hc
    rcases hc with rfl | rfl | hc
    · apply ldigits_hex
      have := b.isLt
      rw [Nat.shiftRight_eq_div_pow]; omega
    · apply ldigits_hex
      have h15 : b.val &&& 15 = b.val % 16 := Nat.and_pow_two_sub_one_eq_mod b.val 4
      rw [h15]; omega
    · exact ih c hc

/-- The digit table gives each value below 16 the digit of that value. -/
theorem hexDigitValue_ldigits (n : Nat) (h : n < 16) :
    hexDigitValue (ldigits.getD n '0') = some n := by
  interval_cases n <;> decide

/-- Reading back what the byte loop wrote gives the bytes. -/
theorem hexDecode_fmtSbx (l : List (Fin 256)) :
    hexDecode (fmtSbx l) = some (l.map Fin.val) := by
  induction l with
  | nil => rfl
  | cons b rest ih =>
    have hb := b.isLt
    have hhi : b.val >>> 4 < 16 := by rw [Nat.shiftRight_eq_div_pow]; omega
    have h15 : b.val &&& 15 = b.val % 16 := Nat.and_pow_two_sub_one_eq_mod b.val 4
    have hlo : b.val &&& 15 < 16 := by rw [h15]; omega
    have hval : 16 * (b.val >>> 4) + (b.val &&& 15) = b.val := by
      rw [h15, Nat.shiftRight_eq_div_pow]; omega
    simp only [fmtSbx, hexDecode, hexDigitValue_ldigits _ hhi, hexDigitValue_ldigits _ hlo, ih,
      List.map_cons, hval]

/-- With enough fuel `floorLog2` is the position of the highest set bit. -/
theorem floorLog2_spec (fuel m : Nat) (h1 : 1 ≤ m) (h2 : m ≤ fuel) :
    2 ^ floorLog2 fuel m ≤ m ∧ m < 2 ^ (floorLog2 fuel m + 1) := by
  induction fuel generalizing m with
  | zero => omega
  | succ k ih =>
    unfold floorLog2
    by_cases hm : m < 2
    · simp only [hm, if_true]; omega
    · simp only [hm, if_false]
      have := ih (m / 2) (by omega) (by omega)
      rw [pow_succ, pow_succ]
      omega

/-- The number of a double given by sign, exponent and an exactly shifted
significand. -/
theorem toRat_of_parts (neg : Bool) (e m : Nat) (he : e ≤ 52)
    (hlo : 4503599627370496 ≤ m * 2 ^ (52 - e)) (hhi : m * 2 ^ (52 - e) < 9007199254740992) :
    Float64.toRat ⟨(if neg then 9223372036854775808 else 0) + (e + 1023) * 4503599627370496
        + (m * 2 ^ (52 - e) - 4503599627370496)⟩
      = (if neg then -1 else 1) * (m : ℚ) := by
  generalize hM : m * 2 ^ (52 - e) = M at hlo hhi
  have hMq : (M : ℚ) = (m : ℚ) * 2 ^ (52 - e) := by
    rw [← hM]; push_cast; ring
  have h1 : ((if neg then 9223372036854775808 else 0) + (e + 1023) * 4503599627370496
      + (M - 4503599627370496)) / 9223372036854775808 % 2 = if neg then 1 else 0 := by
    cases neg <;> simp <;> omega
  have h2 : ((if neg then 9223372036854775808 else 0) + (e + 1023) * 4503599627370496
      + (M - 4503599627370496)) / 4503599627370496 % 2048 = e + 1023 := by
    cases neg <;> simp <;> omega
  have h3 : ((if neg then 9223372036854775808 else 0) + (e + 1023) * 4503599627370496
      + (M - 4503599627370496)) % 4503599627370496 = M - 4503599627370496 := by
    cases neg <;> simp <;> omega
  simp only [Float64.toRat, h1, h2, h3]
  have hne : e + 1023 ≠ 0 := by omega
  simp only [hne, if_false]
  have hfrac : (4503599627370496 : ℚ) + ((M - 4503599627370496 : ℕ) : ℚ) = (M : ℚ) := by
    rw [Nat.cast_sub hlo]; push_cast; ring
  have hpow : (2 : ℚ) ^ (52 - e) * (2 : ℚ) ^ (((e + 1023 : ℕ) : ℤ) - 1075) = 1 := by
    rw [← zpow_natCast, ← zpow_add₀ (by norm_num : (2 : ℚ) ≠ 0)]
    have : ((52 - e : ℕ) : ℤ) + (((e + 1023 : ℕ) : ℤ) - 1075) = 0 := by omega
    rw [this, zpow_zero]
  have hsign : (if (if neg then 1 else 0) = 1 then (-1 : ℚ) else 1) = if neg then -1 else 1 := by
    cases neg <;> simp
  rw [hsign, mul_assoc, hfrac, hMq, mul_assoc, hpow, mul_one]

/-- The conversion `float64(n)` is exact below 2^53. -/
theorem toFloat64_exact (n : Int) (h : n.natAbs < 9007199254740992) :
    (toFloat64 n).toRat = n := by
  by_cases h0 : n.natAbs = 0
  · have hn : n = 0 := Int.natAbs_eq_zero.mp h0
    subst hn
    simp [toFloat64, Float64.toRat]
  · have hspec := floorLog2_spec n.natAbs n.natAbs (by omega) (le_refl _)
    have he : floorLog2 n.natAbs n.natAbs ≤ 52 := by
      by_contra hc
      have : 2 ^ 53 ≤ 2 ^ floorLog2 n.natAbs n.natAbs :=
        Nat.pow_le_pow_right (by norm_num) (by omega)
      omega
    have hp : 2 ^ floorLog2 n.natAbs n.natAbs * 2 ^ (52 - floorLog2 n.natAbs n.natAbs)
        = 4503599627370496 := by
      rw [← pow_add]
      have : floorLog2 n.natAbs n.natAbs + (52 - floorLog2 n.natAbs n.natAbs) = 52 := by omega
      rw [this]; norm_num
    have hp1 : 2 ^ (floorLog2 n.natAbs n.natAbs + 1) * 2 ^ (52 - floorLog2 n.natAbs n.natAbs)
        = 9007199254740992 := by
      rw [← pow_add]
      have : floorLog2 n.natAbs n.natAbs + 1 + (52 - floorLog2 n.natAbs n.natAbs) = 53 := by
        omega
      rw [this]; norm_num
    have hpos : 0 < 2 ^ (52 - floorLog2 n.natAbs n.natAbs) := pow_pos (by norm_num) _
    have hlo : 4503599627370496 ≤ n.natAbs * 2 ^ (52 - floorLog2 n.natAbs n.natAbs) := by
      rw [← hp]; exact Nat.mul_le_mul_right _ hspec.1
    have hhi : n.natAbs * 2 ^ (52 - floorLog2 n.natAbs n.natAbs) < 9007199254740992 := by
      rw [← hp1]; exact Nat.mul_lt_mul_of_pos_right hspec.2 hpos
    have hparts := toRat_of_parts (decide (n < 0)) (floorLog2 n.natAbs n.natAbs) n.natAbs he
      hlo hhi
    simp only [toFloat64, h0, if_false, he, if_true]
    by_cases hneg : n < 0
    · simp only [hneg, decide_True, if_true] at hparts ⊢
      rw [hparts]
      have : ((n.natAbs : ℤ) : ℚ) = ((-n : ℤ) : ℚ) := by
        rw [Int.ofNat_natAbs_of_nonpos (le_of_lt hneg)]
      have h2 : ((n.natAbs : ℕ) : ℚ) = ((n.natAbs : ℤ) : ℚ) := (Int.cast_natCast n.natAbs).symm
      rw [h2, this]; push_cast; ring
    · simp only [hneg, decide_False, if_false] at hparts ⊢
      simp only [Bool.false_eq_true, if_false] at hparts
      rw [hparts]
      have : ((n.natAbs : ℤ) : ℚ) = (n : ℚ) := by
        rw [Int.natAbs_of_nonneg (not_lt.mp hneg)]
      have h2 : ((n.natAbs : ℕ) : ℚ) = ((n.natAbs : ℤ) : ℚ) := (Int.cast_natCast n.natAbs).symm
      rw [h2, this]; ring

/-- The number of a double given by sign, exponent and a rounded significand,
which may have carried into the exponent. -/
theorem toRat_of_rounded (neg : Bool) (e q1 : Nat) (he : 52 ≤ e) (he2 : e ≤ 1000)
    (hlo : 4503599627370496 ≤ q1) (hhi : q1 ≤ 9007199254740992) :
    Float64.toRat ⟨(if neg then 9223372036854775808 else 0) + (e + 1023) * 4503599627370496
        + (q1 - 4503599627370496)⟩
      = (if neg then -1 else 1) * ((q1 : ℚ) * 2 ^ (e - 52)) := by
  have hsign : (if (if neg then 1 else 0) = 1 then (-1 : ℚ) else 1) = if neg then -1 else 1 := by
    cases neg <;> simp
  have h1 : ((if neg then 9223372036854775808 else 0) + (e + 1023) * 4503599627370496
      + (q1 - 4503599627370496)) / 9223372036854775808 % 2 = if neg then 1 else 0 := by
    cases neg <;> simp <;> omega
  by_cases hc : q1 = 9007199254740992
  · subst hc
    have h2 : ((if neg then 9223372036854775808 else 0) + (e + 1023) * 4503599627370496
        + (9007199254740992 - 4503599627370496)) / 4503599627370496 % 2048 = e + 1024 := by
      cases neg <;> simp <;> omega
    have h3 : ((if neg then 9223372036854775808 else 0) + (e + 1023) * 4503599627370496
        + (9007199254740992 - 4503599627370496)) % 4503599627370496 = 0 := by
      cases neg <;> simp
    simp only [Float64.toRat, h1, h2, h3]
    have hne : e + 1024 ≠ 0 := by omega
    simp only [hne, if_false, hsign]
    have hpow : (2 : ℚ) ^ (((e + 1024 : ℕ) : ℤ) - 1075) = 2 * (2 : ℚ) ^ (e - 52) := by
      have : (((e + 1024 : ℕ) : ℤ) - 1075) = (((e - 52 : ℕ) : ℤ) + 1) := by omega
      rw [this, zpow_add₀ (by norm_num : (2 : ℚ) ≠ 0), zpow_natCast, zpow_one, mul_comm]
    rw [hpow]; push_cast; ring
  · have h2 : ((if neg then 9223372036854775808 else 0) + (e + 1023) * 4503599627370496
        + (q1 - 4503599627370496)) / 4503599627370496 % 2048 = e + 1023 := by
      cases neg <;> simp <;> omega
    have h3 : ((if neg then 9223372036854775808 else 0) + (e + 1023) * 4503599627370496
        + (q1 - 4503599627370496)) % 4503599627370496 = q1 - 4503599627370496 := by
      cases neg <;> simp <;> omega
    simp only [Float64.toRat, h1, h2, h3]
    have hne : e + 1023 ≠ 0 := by omega
    simp only [hne, if_false, hsign]
    have hfrac : (4503599627370496 : ℚ) + ((q1 - 4503599627370496 : ℕ) : ℚ) = (q1 : ℚ) := by
      rw [Nat.cast_sub hlo]; push_cast; ring
    have hpow : (2 : ℚ) ^ (((e + 1023 : ℕ) : ℤ) - 1075) = (2 : ℚ) ^ (e - 52) := by
      have : (((e + 1023 : ℕ) : ℤ) - 1075) = ((e - 52 : ℕ) : ℤ) := by omega
      rw [this, zpow_natCast]
    rw [hpow, mul_assoc, hfrac]

/-- Rounding the quotient by `2 ^ s` to nearest, ties to even, moves the
number by at most `2 ^ (s - 1)`. -/
theorem round_half_even_near (m s : Nat) (hs : 1 ≤ s) :
    (if m % 2 ^ s > 2 ^ (s - 1) ∨ (m % 2 ^ s = 2 ^ (s - 1) ∧ m / 2 ^ s % 2 = 1)
        then m / 2 ^ s + 1 else m / 2 ^ s) * 2 ^ s ≤ m + 2 ^ (s - 1) ∧
    m ≤ (if m % 2 ^ s > 2 ^ (s - 1) ∨ (m % 2 ^ s = 2 ^ (s - 1) ∧ m / 2 ^ s % 2 = 1)
        then m / 2 ^ s + 1 else m / 2 ^ s) * 2 ^ s + 2 ^ (s - 1) := by
  have hP : 2 ^ s = 2 * 2 ^ (s - 1) := by
    rw [← pow_succ']; congr 1; omega
  have hdm := Nat.div_add_mod m (2 ^ s)
  have hr := Nat.mod_lt m (Nat.pos_of_ne_zero (pow_ne_zero s (by norm_num : (2 : ℕ) ≠ 0)))
  rw [mul_comm] at hdm
  generalize m % 2 ^ s = r at *
  generalize m / 2 ^ s = q at *
  generalize 2 ^ (s - 1) = half at *
  generalize 2 ^ s = P at *
  split_ifs with hc
  · rw [Nat.add_mul, one_mul]; omega
  · omega

/-- The conversion `float64(n)` of a 64-bit integer is off by at most half
the spacing of the doubles around `n`. -/
theorem toFloat64_nearest (n : Int) (h : n.natAbs < 18446744073709551616) :
    2 * |(toFloat64 n).toRat - (n : ℚ)| ≤ (2 : ℚ) ^ (floorLog2 n.natAbs n.natAbs - 52) := by
  by_cases hsmall : n.natAbs < 9007199254740992
  · rw [toFloat64_exact n hsmall, sub_self, abs_zero, mul_zero]
    positivity
  · have h0 : ¬ n.natAbs = 0 := by omega
    have hspec := floorLog2_spec n.natAbs n.natAbs (by omega) (le_refl _)
    generalize hm : n.natAbs = m at *
    generalize he : floorLog2 m m = e at *
    have he1 : 53 ≤ e := by
      by_contra hc
      have : 2 ^ (e + 1) ≤ 2 ^ 53 := Nat.pow_le_pow_right (by norm_num) (by omega)
      omega
    have he2 : e ≤ 63 := by
      by_contra hc
      have : 2 ^ 64 ≤ 2 ^ e := Nat.pow_le_pow_right (by norm_num) (by omega)
      omega
    have hnle : ¬ e ≤ 52 := by omega
    have hPpos : 0 < 2 ^ (e - 52) := pow_pos (by norm_num) _
    have hp : 4503599627370496 * 2 ^ (e - 52) = 2 ^ e := by
      have : (4503599627370496 : ℕ) = 2 ^ 52 := by norm_num
      rw [this, ← pow_add]; congr 1; omega
    have hp1 : 9007199254740992 * 2 ^ (e - 52) = 2 ^ (e + 1) := by
      have : (9007199254740992 : ℕ) = 2 ^ 53 := by norm_num
      rw [this, ← pow_add]; congr 1; omega
    have hqlo : 4503599627370496 ≤ m / 2 ^ (e - 52) := by
      rw [Nat.le_div_iff_mul_le hPpos, hp]; exact hspec.1
    have hqhi : m / 2 ^ (e - 52) < 9007199254740992 := by
      rw [Nat.div_lt_iff_lt_mul hPpos, hp1]; exact hspec.2
    have hnear := round_half_even_near m (e - 52) (by omega)
    have hhalf : 2 ^ (e - 52) = 2 * 2 ^ (e - 52 - 1) := by
      rw [← pow_succ']; congr 1; omega
    generalize hq1 : (if m % 2 ^ (e - 52) > 2 ^ (e - 52 - 1) ∨
        (m % 2 ^ (e - 52) = 2 ^ (e - 52 - 1) ∧ m / 2 ^ (e - 52) % 2 = 1)
        then m / 2 ^ (e - 52) + 1 else m / 2 ^ (e - 52)) = q1 at hnear
    have hq1lo : 4503599627370496 ≤ q1 := by rw [← hq1]; split_ifs <;> omega
    have hq1hi : q1 ≤ 9007199254740992 := by rw [← hq1]; split_ifs <;> omega
    have hparts := toRat_of_rounded (decide (n < 0)) e q1 (by omega) (by omega) hq1lo hq1hi
    have hval : (toFloat64 n).toRat = (if n < 0 then -1 else 1) * ((q1 : ℚ) * 2 ^ (e - 52)) := by
      simp only [toFloat64, hm, h0, if_false, he, hnle, hq1]
      by_cases hneg : n < 0
      · simp only [hneg, decide_True, if_true] at hparts ⊢
        exact hparts
      · simp only [hneg, decide_False, if_false] at hparts ⊢
        simp only [Bool.false_eq_true, if_false] at hparts
        exact hparts
    have hn : (n : ℚ) = (if n < 0 then -1 else 1) * (m : ℚ) := by
      have h2 : ((m : ℕ) : ℚ) = ((n.natAbs : ℤ) : ℚ) := by
        rw [← hm]; exact (Int.cast_natCast n.natAbs).symm
      by_cases hneg : n < 0
      · simp only [hneg, if_true, h2]
        rw [Int.ofNat_natAbs_of_nonpos (le_of_lt hneg)]; push_cast; ring
      · simp only [hneg, if_false, h2]
        rw [Int.natAbs_of_nonneg (not_lt.mp hneg)]; ring
    have hdiff : |(q1 : ℚ) * 2 ^ (e - 52) - (m : ℚ)| ≤ 2 ^ (e - 52 - 1) := by
      rw [abs_le]
      constructor
      · have : (m : ℚ) ≤ (q1 : ℚ) * 2 ^ (e - 52) + 2 ^ (e - 52 - 1) := by
          exact_mod_cast hnear.2
        linarith
      · have : (q1 : ℚ) * 2 ^ (e - 52) ≤ (m : ℚ) + 2 ^ (e - 52 - 1) := by
          exact_mod_cast hnear.1
        linarith
    have hhalfq : (2 : ℚ) ^ (e - 52) = 2 * 2 ^ (e - 52 - 1) := by
      exact_mod_cast hhalf
    rw [hval, hn, ← mul_sub, abs_mul]
    have hs1 : |(if n < 0 then (-1 : ℚ) else 1)| = 1 := by
      split_ifs <;> simp
    rw [hs1, one_mul]
    calc 2 * |(q1 : ℚ) * 2 ^ (e - 52) - (m : ℚ)| ≤ 2 * 2 ^ (e - 52 - 1) := by linarith
      _ = 2 ^ (e - 52) := hhalfq.symm

/-- On the store that keeps a bin map as it was put, `GetBlock` after `PutBlock`
fails at `Version` for every Block. -/
theorem block_scenario_verbatim_always
    (marshalBlock : Block → Except String (List (Fin 256)))
    (marshalTransaction : Transaction → Except String (List (Fin 256)))
    (sum256 : List (Fin 256) → Digest) (b : Block) (s : Store) (byteData : List (Fin 256))
    (hm : marshalBlock b = .ok byteData) :
    blockScenario (storeAero id (fun _ => true) marshalBlock marshalTransaction sum256) b s
      = some (none, (zeroBlock, some "failed Version assertion"), none,
          (zeroBlock, some "key not found")) := by
  have hh : main.getHash marshalBlock sum256 b = some (sprintfHex (sum256 byteData)) := by
    simp only [main.getHash, hm]
  have hdec : utari.binMapToBlock ⟨(main.blockToBinMap b).mapValues id⟩
      = (zeroBlock, some "failed Version assertion") := rfl
  simp only [blockScenario, main.PutBlock, storeAero, hh, main.getBlockKey, Store.put, if_true,
    main.GetBlock, Store.get, Store.find, main_binMapToBlock_eq, main.DeleteBlock, Store.delete,
    Store.remove, store_find_remove, hdec]

/-- Sample values of `float64(v)`: 1.0, -1.0, 2^53 (from 2^53 + 1, a tie that
goes to the even neighbour), 2^63 (from the largest `int`) and -2^63. -/
theorem toFloat64_samples :
    toFloat64 1 = ⟨0x3FF0000000000000⟩ ∧ toFloat64 (-1) = ⟨0xBFF0000000000000⟩ ∧
    toFloat64 9007199254740993 = ⟨0x4340000000000000⟩ ∧
    toFloat64 9223372036854775807 = ⟨0x43E0000000000000⟩ ∧
    toFloat64 (-9223372036854775808) = ⟨0xC3E0000000000000⟩ := by
  decide

/-! ## The claims -/

/-- Claim C1. For every Transaction `t`, `binMapToTransaction` applied to a
record whose bins are `transactionToBinMap t` returns `t` and no error. -/
theorem transaction_roundtrip (t : Transaction) :
    utari.binMapToTransaction ⟨utari.transactionToBinMap t⟩ = (t, none) := rfl

/-- Counterexample to claim C2. `binMapToBlock` applied to the bins that
`blockToBinMap` builds for the Block of `main` fails at `Version`: the bin
holds an `int32` and the decoder asserts an `int`. -/
theorem block_direct_decode_fails :
    utari.binMapToBlock ⟨utari.blockToBinMap main.block⟩
        = (zeroBlock, some "failed Version assertion") ∧
      utari.binMapToBlock ⟨utari.blockToBinMap main.block⟩ ≠ (main.block, none) := by
  constructor
  · rfl
  · decide

/-- Claim C2, amended. For every Block `b` with its integers in the range of
their types, `binMapToBlock` applied to the bins of `blockToBinMap b` themselves
fails with "failed Version assertion", and applied to those bins as the store
returns them (integers as `int`, `TxidList` as a `[]interface{}`) it returns
`b` and no error, an empty non-nil `TxidList` coming back as the nil slice. -/
theorem block_roundtrip_stored (b : Block) (hr : b.InRange) :
    utari.binMapToBlock ⟨utari.blockToBinMap b⟩ = (zeroBlock, some "failed Version assertion") ∧
    utari.binMapToBlock ⟨(utari.blockToBinMap b).mapValues wireValue⟩
      = ({ b with TxidList := if b.TxidList = some [] then none else b.TxidList }, none) :=
  ⟨rfl, utari_decode_stored b hr⟩

/-- Witness of `block_roundtrip_stored`: the Block of `main`. -/
theorem block_roundtrip_stored_witness :
    main.block.InRange ∧
      utari.binMapToBlock ⟨utari.blockToBinMap main.block⟩
        = (zeroBlock, some "failed Version assertion") ∧
      utari.binMapToBlock ⟨(utari.blockToBinMap main.block).mapValues wireValue⟩
        = (main.block, none) :=
  ⟨by decide, block_roundtrip_stored main.block (by decide)⟩

/-- Claim C3, at the failing inputs. With the key `Unsettled` missing,
`binMapToUnsettled` fails with "failed Unssetled assertion", which does not
contain "Unsettled"; with `Output`, `Input`, `Sign` or `Pubkey` missing,
`binMapToTransaction` fails with a message that has the name in lower case.
The missing-key errors of `binMapToBalance` and `binMapToBlock` do contain the
key. -/
theorem missing_key_error_misnames :
    missingKeyErrors utari.binMapToUnsettled (utari.unsettledToBinMap ⟨"addr", ⟨0⟩⟩)
        unsettledFields
      = [("Address", some "failed Address assertion"),
         ("Unsettled", some "failed Unssetled assertion")] ∧
    ¬ mentions "failed Unssetled assertion" "Unsettled" ∧
    missingKeyErrors utari.binMapToTransaction (utari.transactionToBinMap main.tx)
        transactionFields
      = [("Txid", some "failed Txid assertion"), ("Output", some "failed output assertion"),
         ("Input", some "failed input assertion"), ("Amount", some "failed Amount assertion"),
         ("Timestamp", some "failed Timestamp assertion"), ("Sign", some "failed sign assertion"),
         ("Pubkey", some "failed pubkey assertion")] ∧
    unnamedKeys utari.binMapToTransaction (utari.transactionToBinMap main.tx) transactionFields
      = ["Output", "Input", "Sign", "Pubkey"] ∧
    unnamedKeys utari.binMapToUnsettled (utari.unsettledToBinMap ⟨"addr", ⟨0⟩⟩) unsettledFields
      = ["Unsettled"] ∧
    unnamedKeys utari.binMapToBalance (utari.balanceToBinMap ⟨"addr", ⟨0⟩⟩) balanceFields = [] ∧
    unnamedKeys utari.binMapToBlock ((utari.blockToBinMap main.block).mapValues wireValue)
      blockFields = [] := by
  refine ⟨by decide, by decide, by decide, by decide, by decide, by decide, by decide⟩

/-- Claim C4. For every integer `n`, a field map whose other fields are valid
and whose `Amount` (`Balance`, `Unsettled`) holds the `int` `n` decodes without
error, and the field is `float64(n)`: the double that stands for `n` itself
when `n` is below 2^53 in magnitude, and the double within half a spacing of `n`
for every 64-bit `n`.  The `int` 5 gives 5.0, the double 0x4014000000000000. -/
theorem int_float_field_decodes (n : Int) :
    (∀ (m : BinMap) (txid output input timestamp sign pubkey : String),
      m.get "Txid" = some (.str txid) → m.get "Output" = some (.str output) →
      m.get "Input" = some (.str input) → m.get "Amount" = some (.int n) →
      m.get "Timestamp" = some (.str timestamp) → m.get "Sign" = some (.str sign) →
      m.get "Pubkey" = some (.str pubkey) →
      utari.binMapToTransaction ⟨m⟩
        = (⟨txid, output, input, toFloat64 n, timestamp, sign, pubkey⟩, none)) ∧
    (∀ (m : BinMap) (address : String),
      m.get "Balance" = some (.int n) → m.get "Address" = some (.str address) →
      utari.binMapToBalance ⟨m⟩ = (⟨address, toFloat64 n⟩, none)) ∧
    (∀ (m : BinMap) (address : String),
      m.get "Unsettled" = some (.int n) → m.get "Address" = some (.str address) →
      utari.binMapToUnsettled ⟨m⟩ = (⟨address, toFloat64 n⟩, none)) ∧
    (n.natAbs < 9007199254740992 → (toFloat64 n).toRat = n) ∧
    (n.natAbs < 18446744073709551616 →
      2 * |(toFloat64 n).toRat - (n : ℚ)| ≤ (2 : ℚ) ^ (floorLog2 n.natAbs n.natAbs - 52)) ∧
    toFloat64 5 = ⟨0x4014000000000000⟩ := by
  refine ⟨?_, ?_, ?_, toFloat64_exact n, toFloat64_nearest n, by decide⟩
  · intro m txid output input timestamp sign pubkey h1 h2 h3 h4 h5 h6 h7
    simp only [utari.binMapToTransaction, h1, h2, h3, h4, h5, h6, h7, asString, asInt, asFloat64,
      zeroTransaction]
  · intro m address h1 h2
    simp only [utari.binMapToBalance, h1, h2, asString, asInt, asFloat64, zeroBalance]
  · intro m address h1 h2
    simp only [utari.binMapToUnsettled, h1, h2, asString, asInt, asFloat64, zeroUnsettled]

/-- Witness of `int_float_field_decodes`: the `int` 5 in each of the three
fields. -/
theorem int_float_field_decodes_witness :
    utari.binMapToTransaction
        ⟨[("Txid", .str "testtxid"), ("Output", .str "testoutput"), ("Input", .str "testinput"),
          ("Amount", .int 5), ("Timestamp", .str "test_timestamp"), ("Sign", .str "test_sign"),
          ("Pubkey", .str "test_pubkey")]⟩
      = (⟨"testtxid", "testoutput", "testinput", ⟨0x4014000000000000⟩, "test_timestamp",
          "test_sign", "test_pubkey"⟩, none) ∧
    utari.binMapToBalance ⟨[("Address", .str "addr"), ("Balance", .int 5)]⟩
      = (⟨"addr", ⟨0x4014000000000000⟩⟩, none) ∧
    utari.binMapToUnsettled ⟨[("Address", .str "addr"), ("Unsettled", .int 5)]⟩
      = (⟨"addr", ⟨0x4014000000000000⟩⟩, none) ∧
    (toFloat64 5).toRat = 5 :=
  ⟨(int_float_field_decodes 5).1 _ _ _ _ _ _ _ rfl rfl rfl rfl rfl rfl rfl,
   (int_float_field_decodes 5).2.1 _ _ rfl rfl,
   (int_float_field_decodes 5).2.2.1 _ _ rfl rfl,
   (int_float_field_decodes 5).2.2.2.1 (by decide)⟩

/-- Claim C5. For every field map whose other nine Block fields are valid and
whose `TxidList` is a sequence with at least one element that is not a string,
`binMapToBlock` fails with "failed TxidList assertion", wherever the element
stands and whatever the other elements are. -/
theorem txidList_bad_element (m : BinMap) (l : List Value)
    (h1 : m.holdsString "Id") (h2 : m.holdsInt "Version") (h3 : m.holdsString "Prehash")
    (h4 : m.holdsString "Merkleroot") (h5 : m.holdsString "Timestamp")
    (h6 : m.holdsString "Level") (h7 : m.holdsInt "Nonce") (h8 : m.holdsInt "Size")
    (h9 : m.holdsInt "Txcount") (h10 : m.get "TxidList" = some (.slice l))
    (hbad : ∃ v ∈ l, v.isString = false) :
    utari.binMapToBlock ⟨m⟩ = (zeroBlock, some "failed TxidList assertion") := by
  obtain ⟨id, h1⟩ := h1
  obtain ⟨version, h2⟩ := h2
  obtain ⟨prehash, h3⟩ := h3
  obtain ⟨merkleroot, h4⟩ := h4
  obtain ⟨timestamp, h5⟩ := h5
  obtain ⟨level, h6⟩ := h6
  obtain ⟨nonce, h7⟩ := h7
  obtain ⟨size, h8⟩ := h8
  obtain ⟨txcount, h9⟩ := h9
  simp only [utari.binMapToBlock, h1, h2, h3, h4, h5, h6, h7, h8, h9, h10, asString, asInt,
    asSlice, utari_txidLoop_bad l none hbad]

/-- Witness of `txidList_bad_element`: the bins of the Block of `main` with an
`int` between the two transaction ids. -/
theorem txidList_bad_element_witness :
    utari.binMapToBlock
        ⟨[("Id", .str "testid"), ("Version", .int 12), ("Prehash", .str "testprehash"),
          ("Merkleroot", .str "testmerkleroot"), ("Timestamp", .str "test_timestamp"),
          ("Level", .str "test_level"), ("Nonce", .int 123), ("Size", .int 1234),
          ("Txcount", .int 12345),
          ("TxidList", .slice [.str "testid1", .int 7, .str "testid2"])]⟩
      = (zeroBlock, some "failed TxidList assertion") :=
  txidList_bad_element _ [.str "testid1", .int 7, .str "testid2"]
    ⟨_, rfl⟩ ⟨_, rfl⟩ ⟨_, rfl⟩ ⟨_, rfl⟩ ⟨_, rfl⟩ ⟨_, rfl⟩ ⟨_, rfl⟩ ⟨_, rfl⟩ ⟨_, rfl⟩ rfl
    ⟨.int 7, by simp, rfl⟩

/-- Claim C6. For every record, the bin map of its encoder has exactly the
declared attribute names as keys (10 for a Block, 7 for a Transaction, 2 for a
Balance, 2 for an Unsettled), and every key maps to the value of the attribute
of that name, with the type of the attribute. -/
theorem encoders_write_every_attribute (b : Block) (t : Transaction) (bal : Balance)
    (u : Unsettled) :
    ((utari.blockToBinMap b).keys = blockFields ∧ blockFields.Nodup ∧ blockFields.length = 10 ∧
      (utari.blockToBinMap b).get "Id" = some (.str b.Id) ∧
      (utari.blockToBinMap b).get "Version" = some (.int32 b.Version) ∧
      (utari.blockToBinMap b).get "Prehash" = some (.str b.Prehash) ∧
      (utari.blockToBinMap b).get "Merkleroot" = some (.str b.Merkleroot) ∧
      (utari.blockToBinMap b).get "Timestamp" = some (.str b.Timestamp) ∧
      (utari.blockToBinMap b).get "Level" = some (.str b.Level) ∧
      (utari.blockToBinMap b).get "Nonce" = some (.uint32 b.Nonce) ∧
      (utari.blockToBinMap b).get "Size" = some (.int64 b.Size) ∧
      (utari.blockToBinMap b).get "Txcount" = some (.int64 b.Txcount) ∧
      (utari.blockToBinMap b).get "TxidList" = some (.strings b.TxidList)) ∧
    ((utari.transactionToBinMap t).keys = transactionFields ∧ transactionFields.Nodup ∧
      transactionFields.length = 7 ∧
      (utari.transactionToBinMap t).get "Txid" = some (.str t.Txid) ∧
      (utari.transactionToBinMap t).get "Output" = some (.str t.Output) ∧
      (utari.transactionToBinMap t).get "Input" = some (.str t.Input) ∧
      (utari.transactionToBinMap t).get "Amount" = some (.float64 t.Amount) ∧
      (utari.transactionToBinMap t).get "Timestamp" = some (.str t.Timestamp) ∧
      (utari.transactionToBinMap t).get "Sign" = some (.str t.Sign) ∧
      (utari.transactionToBinMap t).get "Pubkey" = some (.str t.Pubkey)) ∧
    ((utari.balanceToBinMap bal).keys = balanceFields ∧ balanceFields.Nodup ∧
      balanceFields.length = 2 ∧
      (utari.balanceToBinMap bal).get "Address" = some (.str bal.Address) ∧
      (utari.balanceToBinMap bal).get "Balance" = some (.float64 bal.Balance)) ∧
    ((utari.unsettledToBinMap u).keys = unsettledFields ∧ unsettledFields.Nodup ∧
      unsettledFields.length = 2 ∧
      (utari.unsettledToBinMap u).get "Address" = some (.str u.Address) ∧
      (utari.unsettledToBinMap u).get "Unsettled" = some (.float64 u.Unsettled)) := by
  refine ⟨⟨rfl, by decide, rfl, rfl, rfl, rfl, rfl, rfl, rfl, rfl, rfl, rfl, rfl⟩,
    ⟨rfl, by decide, rfl, rfl, rfl, rfl, rfl, rfl, rfl, rfl⟩,
    ⟨rfl, by decide, rfl, rfl, rfl⟩, ⟨rfl, by decide, rfl, rfl, rfl⟩⟩

/-- Claim C7. For every record `v` whose serialization succeeds, `GetHash v`
(and `getHash v` of `main.go`) returns the lower-case hexadecimal rendering of
the 32-byte digest of the serialized bytes: a string of exactly 64 characters,
each one of 0-9 or a-f, that reads back as the bytes of the digest, two
characters per byte with the leading zero kept.  The digest of `abc` is
rendered as ba7816bf...f20015ad. -/
theorem hash_is_64_hex {α : Type} (jsonMarshal : α → Except String (List (Fin 256)))
    (sum256 : List (Fin 256) → Digest) (v : α) (byteData : List (Fin 256))
    (h : jsonMarshal v = .ok byteData) :
    ∃ hash : String,
      utari.GetHash jsonMarshal sum256 v = some hash ∧
      main.getHash jsonMarshal sum256 v = some hash ∧
      hash.length = 64 ∧
      (∀ c ∈ hash.data, c ∈ "0123456789abcdef".data) ∧
      hexDecode hash.data = some ((sum256 byteData).val.map Fin.val) ∧
      hash = sprintfHex (sum256 byteData) ∧
      sprintfHex abcDigest
        = "ba7816bf8f01cfea414140de5dae2223b00361a396177a9cb410ff61f20015ad" := by
  refine ⟨sprintfHex (sum256 byteData), ?_, ?_, ?_, ?_, ?_, rfl, by decide⟩
  · simp only [utari.GetHash, h]
  · simp only [main.getHash, h]
  · simp only [sprintfHex, String.length, fmtSbx_length, (sum256 byteData).property]
  · exact fmtSbx_hex _
  · exact hexDecode_fmtSbx _

/-- Witness of `hash_is_64_hex`: the Block of `main` with the sample serializer
and digest. -/
theorem hash_is_64_hex_witness :
    ∃ hash : String,
      utari.GetHash sampleMarshalBlock sampleSum256 main.block = some hash ∧
      main.getHash sampleMarshalBlock sampleSum256 main.block = some hash ∧
      hash.length = 64 ∧
      (∀ c ∈ hash.data, c ∈ "0123456789abcdef".data) ∧
      hexDecode hash.data
        = some ((sampleSum256 [116, 101, 115, 116, 105, 100]).val.map Fin.val) ∧
      hash = sprintfHex (sampleSum256 [116, 101, 115, 116, 105, 100]) ∧
      sprintfHex abcDigest
        = "ba7816bf8f01cfea414140de5dae2223b00361a396177a9cb410ff61f20015ad" :=
  hash_is_64_hex sampleMarshalBlock sampleSum256 main.block [116, 101, 115, 116, 105, 100] rfl

/-- Counterexample to claim C9. On the store that keeps a bin map as it was
put, `GetBlock` after `PutBlock` of the Block of `main` returns the error
"failed Version assertion" and the zero Block. -/
theorem block_scenario_verbatim_store :
    blockScenario (storeAero id (fun _ => true) sampleMarshalBlock sampleMarshalTransaction
        sampleSum256) main.block Store.empty
      = some (none, (zeroBlock, some "failed Version assertion"), none,
          (zeroBlock, some "key not found")) := by
  decide

/-- Claim C9, amended. On the store that returns integer bins as `int` and
list bins as `[]interface{}`, for every Block `b` with its integers in the
range of their types: `PutBlock b` succeeds, `GetBlock` of the hash of `b`
returns `b` field for field (an empty non-nil `TxidList` as the nil slice),
`DeleteBlock` succeeds and the following `GetBlock` returns an error. -/
theorem block_scenario_store (marshalBlock : Block → Except String (List (Fin 256)))
    (marshalTransaction : Transaction → Except String (List (Fin 256)))
    (sum256 : List (Fin 256) → Digest) (b : Block) (s : Store) (byteData : List (Fin 256))
    (hm : marshalBlock b = .ok byteData) (hr : b.InRange) :
    blockScenario (storeAero wireValue (fun _ => true) marshalBlock marshalTransaction sum256)
        b s
      = some (none,
          ({ b with TxidList := if b.TxidList = some [] then none else b.TxidList }, none),
          none, (zeroBlock, some "key not found")) := by
  have hh : main.getHash marshalBlock sum256 b = some (sprintfHex (sum256 byteData)) := by
    simp only [main.getHash, hm]
  have hdec := utari_decode_stored b hr
  simp only [blockScenario, main.PutBlock, storeAero, hh, main.getBlockKey, Store.put, if_true,
    main.GetBlock, Store.get, Store.find, main_binMapToBlock_eq, main.DeleteBlock, Store.delete,
    Store.remove, store_find_remove]
  have hb : main.blockToBinMap b = utari.blockToBinMap b := rfl
  simp only [hb, hdec]

/-- Witness of `block_scenario_store`: the Block of `main` on the empty
store. -/
theorem block_scenario_store_witness :
    main.block.InRange ∧
      blockScenario (storeAero wireValue (fun _ => true) sampleMarshalBlock
          sampleMarshalTransaction sampleSum256) main.block Store.empty
        = some (none, (main.block, none), none, (zeroBlock, some "key not found")) :=
  ⟨by decide,
   block_scenario_store sampleMarshalBlock sampleMarshalTransaction sampleSum256 main.block
     Store.empty [116, 101, 115, 116, 105, 100] rfl (by decide)⟩

/-- A key that is not among the keys of the map has no value, and conversely. -/
theorem BinMap.get_eq_none_iff (m : BinMap) (k : String) : m.get k = none ↔ k ∉ m.keys := by
  induction m with
  | nil => simp [BinMap.get, BinMap.keys]
  | cons kv rest ih =>
    obtain ⟨k1, v⟩ := kv
    by_cases h : k = k1
    · simp [BinMap.get, BinMap.keys, h]
    · simp only [BinMap.get, h, if_false, BinMap.keys, List.map_cons, List.mem_cons, false_or]
      exact ih

/-- The string assertion succeeds exactly on what a string field admits. -/
theorem admits_string (o : Option Value) :
    FieldKind.admits .string o = (asString o).isSome := by
  rcases o with _ | v
  · rfl
  · cases v <;> rfl

/-- The `int` assertion succeeds exactly on what an integer field admits. -/
theorem admits_integer (o : Option Value) :
    FieldKind.admits .integer o = (asInt o).isSome := by
  rcases o with _ | v
  · rfl
  · cases v <;> rfl

/-- The `float64` assertion or else the `int` assertion succeeds exactly on
what a number field admits. -/
theorem admits_number (o : Option Value) :
    FieldKind.admits .number o = ((asFloat64 o).isSome || (asInt o).isSome) := by
  rcases o with _ | v
  · rfl
  · cases v <;> rfl

/-- The element loop succeeds exactly when all elements are strings. -/
theorem utari_txidLoop_isSome (l : List Value) (acc : Option (List String)) :
    (utari.txidLoop l acc).isSome = l.all Value.isString := by
  induction l generalizing acc with
  | nil => rfl
  | cons x rest ih =>
    cases x <;> simp [utari.txidLoop, asString, Value.isString, ih]

/-- The slice assertion followed by the element loop succeeds exactly on what
a field of strings admits. -/
theorem admits_stringSlice (o : Option Value) :
    FieldKind.admits .stringSlice o
      = (match asSlice o with
         | none => false
         | some l => (utari.txidLoop l none).isSome) := by
  rcases o with _ | v
  · rfl
  · cases v <;> simp [FieldKind.admits, asSlice, utari_txidLoop_isSome]

/-- The error of `utari.binMapToBlock` is the error of the first failing check. -/
theorem utari_block_error (m : BinMap) :
    (utari.binMapToBlock ⟨m⟩).2 = firstFailure blockChecks m := by
  simp only [firstFailure, blockChecks, admits_string, admits_integer, admits_stringSlice]
  unfold utari.binMapToBlock
  simp only []
  rcases asString (m.get "Id") with _ | id
  · simp
  rcases asInt (m.get "Version") with _ | version
  · simp
  rcases asString (m.get "Prehash") with _ | prehash
  · simp
  rcases asString (m.get "Merkleroot") with _ | merkleroot
  · simp
  rcases asString (m.get "Timestamp") with _ | timestamp
  · simp
  rcases asString (m.get "Level") with _ | level
  · simp
  rcases asInt (m.get "Nonce") with _ | nonce
  · simp
  rcases asInt (m.get "Size") with _ | size
  · simp
  rcases asInt (m.get "Txcount") with _ | txcount
  · simp
  rcases asSlice (m.get "TxidList") with _ | interfaceSlice
  · simp
  dsimp only
  rcases utari.txidLoop interfaceSlice none with _ | txidList
  · simp
  simp

/-- The error of `utari.binMapToTransaction` is the error of the first failing
check. -/
theorem utari_transaction_error (m : BinMap) :
    (utari.binMapToTransaction ⟨m⟩).2 = firstFailure transactionChecks m := by
  simp only [firstFailure, transactionChecks, admits_string, admits_number]
  unfold utari.binMapToTransaction
  simp only []
  rcases asString (m.get "Txid") with _ | txid
  · simp
  rcases asString (m.get "Output") with _ | output
  · simp
  rcases asString (m.get "Input") with _ | input
  · simp
  rcases asFloat64 (m.get "Amount") with _ | amountFloat <;>
    rcases asInt (m.get "Amount") with _ | amountInt <;>
    rcases asString (m.get "Timestamp") with _ | timestamp <;>
    rcases asString (m.get "Sign") with _ | sign <;>
    rcases asString (m.get "Pubkey") with _ | pubkey <;> simp

/-- The error of `utari.binMapToBalance` is the error of the first failing
check. -/
theorem utari_balance_error (m : BinMap) :
    (utari.binMapToBalance ⟨m⟩).2 = firstFailure balanceChecks m := by
  simp only [firstFailure, balanceChecks, admits_string, admits_number]
  unfold utari.binMapToBalance
  simp only []
  rcases asFloat64 (m.get "Balance") with _ | balanceFloat <;>
    rcases asInt (m.get "Balance") with _ | balanceInt <;>
    rcases asString (m.get "Address") with _ | address <;> simp

/-- The error of `utari.binMapToUnsettled` is the error of the first failing
check. -/
theorem utari_unsettled_error (m : BinMap) :
    (utari.binMapToUnsettled ⟨m⟩).2 = firstFailure unsettledChecks m := by
  simp only [firstFailure, unsettledChecks, admits_string, admits_number]
  unfold utari.binMapToUnsettled
  simp only []
  rcases asFloat64 (m.get "Unsettled") with _ | unsettledFloat <;>
    rcases asInt (m.get "Unsettled") with _ | unsettledInt <;>
    rcases asString (m.get "Address") with _ | address <;> simp

/-- A failing `utari.binMapToBlock` returns the zero Block. -/
theorem utari_block_zero_of_error (record : Record)
    (h : (utari.binMapToBlock record).2 ≠ none) : (utari.binMapToBlock record).1 = zeroBlock := by
  revert h
  unfold utari.binMapToBlock
  simp only []
  repeat' split
  all_goals simp

/-- A failing `utari.binMapToTransaction` returns the zero Transaction. -/
theorem utari_transaction_zero_of_error (record : Record)
    (h : (utari.binMapToTransaction record).2 ≠ none) :
    (utari.binMapToTransaction record).1 = zeroTransaction := by
  revert h
  unfold utari.binMapToTransaction
  simp only []
  repeat' split
  all_goals simp

/-- A failing `utari.binMapToBalance` returns the zero Balance. -/
theorem utari_balance_zero_of_error (record : Record)
    (h : (utari.binMapToBalance record).2 ≠ none) :
    (utari.binMapToBalance record).1 = zeroBalance := by
  revert h
  unfold utari.binMapToBalance
  simp only []
  repeat' split
  all_goals simp

/-- A failing `utari.binMapToUnsettled` returns the zero Unsettled. -/
theorem utari_unsettled_zero_of_error (record : Record)
    (h : (utari.binMapToUnsettled record).2 ≠ none) :
    (utari.binMapToUnsettled record).1 = zeroUnsettled := by
  revert h
  unfold utari.binMapToUnsettled
  simp only []
  repeat' split
  all_goals simp

/-- A check that fails makes `firstFailure` report an error. -/
theorem firstFailure_ne_none (checks : List (String × FieldKind × String)) (m : BinMap)
    (k : String) (kind : FieldKind) (msg : String) (hmem : (k, kind, msg) ∈ checks)
    (hbad : kind.admits (m.get k) = false) : firstFailure checks m ≠ none := by
  induction checks with
  | nil => simp at hmem
  | cons c rest ih =>
    obtain ⟨k1, kind1, msg1⟩ := c
    simp only [firstFailure]
    by_cases hc : kind1.admits (m.get k1) = true
    · simp only [hc, if_true]
      rcases List.mem_cons.mp hmem with heq | hrest
      · simp only [Prod.mk.injEq] at heq
        obtain ⟨rfl, rfl, rfl⟩ := heq
        rw [hbad] at hc; exact absurd hc (by simp)
      · exact ih hrest
    · simp [hc]

/-- When every check before a failing one passes, `firstFailure` reports the
error of the failing one. -/
theorem firstFailure_eq (pre post : List (String × FieldKind × String)) (m : BinMap)
    (k : String) (kind : FieldKind) (msg : String)
    (hpre : ∀ c ∈ pre, c.2.1.admits (m.get c.1) = true)
    (hbad : kind.admits (m.get k) = false) :
    firstFailure (pre ++ (k, kind, msg) :: post) m = some msg := by
  induction pre with
  | nil => simp [firstFailure, hbad]
  | cons c rest ih =>
    obtain ⟨k1, kind1, msg1⟩ := c
    have h1 : kind1.admits (m.get k1) = true := hpre (k1, kind1, msg1) (by simp)
    simp only [List.cons_append, firstFailure, h1, if_true]
    exact ih (fun c hc => hpre c (List.mem_cons_of_mem _ hc))

/-- A list of values that are all strings is a list of strings. -/
theorem all_strings_eq_map (l : List Value) (h : ∀ v ∈ l, v.isString = true) :
    ∃ ss : List String, l = ss.map Value.str := by
  induction l with
  | nil => exact ⟨[], rfl⟩
  | cons x rest ih =>
    obtain ⟨ss, hss⟩ := ih (fun v hv => h v (List.mem_cons_of_mem _ hv))
    have hx := h x (by simp)
    cases x with
    | str s => exact ⟨s :: ss, by simp [hss]⟩
    | _ => simp [Value.isString] at hx

/-- The decoded Block of a valid field map. -/
theorem utari_block_of_valid (m : BinMap) (h : validBlockMap m) :
    ∃ (id prehash merkleroot timestamp level : String) (version nonce size txcount : Int)
      (ss : List String),
      m.get "Id" = some (.str id) ∧ m.get "Version" = some (.int version) ∧
      m.get "Prehash" = some (.str prehash) ∧ m.get "Merkleroot" = some (.str merkleroot) ∧
      m.get "Timestamp" = some (.str timestamp) ∧ m.get "Level" = some (.str level) ∧
      m.get "Nonce" = some (.int nonce) ∧ m.get "Size" = some (.int size) ∧
      m.get "Txcount" = some (.int txcount) ∧
      m.get "TxidList" = some (.slice (ss.map Value.str)) ∧
      utari.binMapToBlock ⟨m⟩ =
        (⟨id, toInt32 version, prehash, merkleroot, timestamp, level, toUint32 nonce,
          toInt64 size, toInt64 txcount, if ss = [] then none else some ss⟩, none) := by
  obtain ⟨⟨id, h1⟩, ⟨prehash, h3⟩, ⟨merkleroot, h4⟩, ⟨timestamp, h5⟩, ⟨level, h6⟩,
    ⟨version, h2⟩, ⟨nonce, h7⟩, ⟨size, h8⟩, ⟨txcount, h9⟩, ⟨l, h10, hall⟩⟩ := h
  obtain ⟨ss, rfl⟩ := all_strings_eq_map l hall
  refine ⟨id, prehash, merkleroot, timestamp, level, version, nonce, size, txcount, ss,
    h1, h2, h3, h4, h5, h6, h7, h8, h9, h10, ?_⟩
  have hloop : utari.txidLoop (ss.map Value.str) none
      = some (if ss = [] then none else some ss) := by
    rw [utari_txidLoop_strings]; simp
  exact utari_binMapToBlock_of_fields m id prehash merkleroot timestamp level version nonce size
    txcount _ _ h1 h2 h3 h4 h5 h6 h7 h8 h9 h10 hloop

/-- When no check fails, every check passes. -/
theorem admits_of_firstFailure_none (checks : List (String × FieldKind × String)) (m : BinMap)
    (h : firstFailure checks m = none) : ∀ c ∈ checks, c.2.1.admits (m.get c.1) = true := by
  induction checks with
  | nil => intro c hc; simp at hc
  | cons c1 rest ih =>
    obtain ⟨k1, kind1, msg1⟩ := c1
    simp only [firstFailure] at h
    by_cases hc : kind1.admits (m.get k1) = true
    · simp only [hc, if_true] at h
      intro c hmem
      rcases List.mem_cons.mp hmem with rfl | hrest
      · exact hc
      · exact ih h c hrest
    · simp [hc] at h

/-- What a string field admits is a string. -/
theorem holdsString_of_admits (m : BinMap) (k : String)
    (h : FieldKind.admits .string (m.get k) = true) : m.holdsString k := by
  unfold BinMap.holdsString
  cases hg : m.get k with
  | none => rw [hg] at h; simp [FieldKind.admits] at h
  | some v =>
    rw [hg] at h
    cases v <;> simp_all [FieldKind.admits, Value.isString]

/-- What an integer field admits is an `int`. -/
theorem holdsInt_of_admits (m : BinMap) (k : String)
    (h : FieldKind.admits .integer (m.get k) = true) : m.holdsInt k := by
  unfold BinMap.holdsInt
  cases hg : m.get k with
  | none => rw [hg] at h; simp [FieldKind.admits] at h
  | some v =>
    rw [hg] at h
    cases v <;> simp_all [FieldKind.admits, Value.isInt]

/-- What a field of strings admits is a `[]interface{}` of strings. -/
theorem holdsStringSlice_of_admits (m : BinMap) (k : String)
    (h : FieldKind.admits .stringSlice (m.get k) = true) : m.holdsStringSlice k := by
  unfold BinMap.holdsStringSlice
  cases hg : m.get k with
  | none => rw [hg] at h; simp [FieldKind.admits] at h
  | some v =>
    rw [hg] at h
    cases v <;> simp_all [FieldKind.admits]

/-- The checks of a Block pass exactly on a valid field map. -/
theorem firstFailure_block_none_iff (m : BinMap) :
    firstFailure blockChecks m = none ↔ validBlockMap m := by
  constructor
  · intro h
    have hall := admits_of_firstFailure_none blockChecks m h
    simp only [blockChecks, List.forall_mem_cons] at hall
    obtain ⟨a1, a2, a3, a4, a5, a6, a7, a8, a9, a10, -⟩ := hall
    exact ⟨holdsString_of_admits m _ a1, holdsString_of_admits m _ a3,
      holdsString_of_admits m _ a4, holdsString_of_admits m _ a5, holdsString_of_admits m _ a6,
      holdsInt_of_admits m _ a2, holdsInt_of_admits m _ a7, holdsInt_of_admits m _ a8,
      holdsInt_of_admits m _ a9, holdsStringSlice_of_admits m _ a10⟩
  · intro h
    obtain ⟨id, prehash, merkleroot, timestamp, level, version, nonce, size, txcount, ss,
      h1, h2, h3, h4, h5, h6, h7, h8, h9, h10, hdec⟩ := utari_block_of_valid m h
    rw [← utari_block_error, hdec]

/-! ## The claims on the decoders -/

/-- Claim C11. For every otherwise valid field map and all integers in
`Version`, `Nonce`, `Size` and `Txcount` (64-bit ones in `Size` and
`Txcount`), `binMapToBlock` succeeds whatever their magnitude: `Version` is the
value reduced modulo 2^32 into the signed 32-bit range, `Nonce` is the value
modulo 2^32 (never negative), `Size` and `Txcount` are the values unchanged. -/
theorem block_integers_wrap (m : BinMap) (v1 v2 v3 v4 : Int) (hvalid : validBlockMap m)
    (hr3 : IsInt64 v3) (hr4 : IsInt64 v4)
    (h1 : m.get "Version" = some (.int v1)) (h2 : m.get "Nonce" = some (.int v2))
    (h3 : m.get "Size" = some (.int v3)) (h4 : m.get "Txcount" = some (.int v4)) :
    ∃ b, utari.binMapToBlock ⟨m⟩ = (b, none) ∧
      (-2147483648 ≤ b.Version ∧ b.Version < 2147483648 ∧
        b.Version % 4294967296 = v1 % 4294967296) ∧
      (b.Nonce = v2 % 4294967296 ∧ 0 ≤ b.Nonce ∧ b.Nonce < 4294967296) ∧
      b.Size = v3 ∧ b.Txcount = v4 := by
  obtain ⟨id, prehash, merkleroot, timestamp, level, version, nonce, size, txcount, ss,
    g1, g2, g3, g4, g5, g6, g7, g8, g9, g10, hdec⟩ := utari_block_of_valid m hvalid
  rw [h1] at g2; rw [h2] at g7; rw [h3] at g8; rw [h4] at g9
  simp only [Option.some.injEq, Value.int.injEq] at g2 g7 g8 g9
  subst g2 g7 g8 g9
  refine ⟨_, hdec, ?_, ?_, ?_, ?_⟩
  · dsimp only; unfold toInt32; omega
  · dsimp only; unfold toUint32; omega
  · exact toInt64_of_inRange _ hr3.1 hr3.2
  · exact toInt64_of_inRange _ hr4.1 hr4.2

/-- Witness of `block_integers_wrap`: `Version` 2^31 becomes -2^31 and `Nonce`
-1 becomes 2^32 - 1. -/
theorem block_integers_wrap_witness :
    ∃ b, utari.binMapToBlock ⟨wrapBins⟩ = (b, none) ∧
      (-2147483648 ≤ b.Version ∧ b.Version < 2147483648 ∧
        b.Version % 4294967296 = 2147483648 % 4294967296) ∧
      (b.Nonce = (-1) % 4294967296 ∧ 0 ≤ b.Nonce ∧ b.Nonce < 4294967296) ∧
      b.Size = 9223372036854775807 ∧ b.Txcount = -9223372036854775808 :=
  block_integers_wrap wrapBins 2147483648 (-1) 9223372036854775807 (-9223372036854775808)
    ⟨⟨_, rfl⟩, ⟨_, rfl⟩, ⟨_, rfl⟩, ⟨_, rfl⟩, ⟨_, rfl⟩, ⟨_, rfl⟩, ⟨_, rfl⟩, ⟨_, rfl⟩, ⟨_, rfl⟩,
      ⟨_, rfl, by simp [Value.isString]⟩⟩
    (by decide) (by decide) rfl rfl rfl rfl

/-- Claim C12. `binMapToBlock` succeeds if and only if the five string fields
hold strings, the four integer fields hold an `int` and `TxidList` holds a
sequence of strings; on success every string field is the value of the map,
every integer field is the converted value of the map, and `TxidList` has the
elements of the sequence of the map, as many and in the same order.  The Block
of `main` decodes although its `Txcount` is 12345 and it has two ids. -/
theorem block_decode_characterisation (m : BinMap) :
    ((utari.binMapToBlock ⟨m⟩).2 = none ↔ validBlockMap m) ∧
    (∀ b, utari.binMapToBlock ⟨m⟩ = (b, none) →
      m.get "Id" = some (.str b.Id) ∧ m.get "Prehash" = some (.str b.Prehash) ∧
      m.get "Merkleroot" = some (.str b.Merkleroot) ∧
      m.get "Timestamp" = some (.str b.Timestamp) ∧ m.get "Level" = some (.str b.Level) ∧
      (∃ v, m.get "Version" = some (.int v) ∧ b.Version = toInt32 v) ∧
      (∃ v, m.get "Nonce" = some (.int v) ∧ b.Nonce = toUint32 v) ∧
      (∃ v, m.get "Size" = some (.int v) ∧ b.Size = toInt64 v) ∧
      (∃ v, m.get "Txcount" = some (.int v) ∧ b.Txcount = toInt64 v) ∧
      m.get "TxidList" = some (.slice ((b.TxidList.getD []).map Value.str))) ∧
    (utari.binMapToBlock ⟨storedBlockBins⟩ = (main.block, none) ∧
      main.block.Txcount = 12345 ∧ (main.block.TxidList.getD []).length = 2) := by
  refine ⟨?_, ?_, rfl, rfl, rfl⟩
  · rw [utari_block_error]; exact firstFailure_block_none_iff m
  · intro b hb
    have hvalid : validBlockMap m := by
      rw [← firstFailure_block_none_iff, ← utari_block_error, hb]
    obtain ⟨id, prehash, merkleroot, timestamp, level, version, nonce, size, txcount, ss,
      g1, g2, g3, g4, g5, g6, g7, g8, g9, g10, hdec⟩ := utari_block_of_valid m hvalid
    rw [hdec] at hb
    simp only [Prod.mk.injEq, and_true] at hb
    subst hb
    refine ⟨g1, g3, g4, g5, g6, ⟨_, g2, rfl⟩, ⟨_, g7, rfl⟩, ⟨_, g8, rfl⟩, ⟨_, g9, rfl⟩, ?_⟩
    rw [g10]
    cases ss <;> simp

/-- Witness of `block_decode_characterisation`: the stored bins of the Block of
`main` decode to that Block, and the fields of the map are its fields. -/
theorem block_decode_characterisation_witness :
    storedBlockBins.get "Id" = some (.str main.block.Id) ∧
      storedBlockBins.get "TxidList"
        = some (.slice ((main.block.TxidList.getD []).map Value.str)) :=
  ⟨((block_decode_characterisation storedBlockBins).2.1 main.block rfl).1,
   ((block_decode_characterisation storedBlockBins).2.1 main.block rfl).2.2.2.2.2.2.2.2.2⟩

/-- Claim C13. In every decoder a string field is strict: when the key of a
string field is present with a value that is not a string, the decoder fails
and returns the zero record. -/
theorem string_fields_strict (m : BinMap) (k : String) (v : Value)
    (hk : m.get k = some v) (hv : v.isString = false) :
    (k ∈ ["Id", "Prehash", "Merkleroot", "Timestamp", "Level"] →
      (utari.binMapToBlock ⟨m⟩).2 ≠ none ∧ (utari.binMapToBlock ⟨m⟩).1 = zeroBlock) ∧
    (k ∈ ["Txid", "Output", "Input", "Timestamp", "Sign", "Pubkey"] →
      (utari.binMapToTransaction ⟨m⟩).2 ≠ none ∧
        (utari.binMapToTransaction ⟨m⟩).1 = zeroTransaction) ∧
    (k = "Address" →
      ((utari.binMapToBalance ⟨m⟩).2 ≠ none ∧ (utari.binMapToBalance ⟨m⟩).1 = zeroBalance) ∧
      ((utari.binMapToUnsettled ⟨m⟩).2 ≠ none ∧
        (utari.binMapToUnsettled ⟨m⟩).1 = zeroUnsettled)) := by
  have hbad : FieldKind.admits .string (m.get k) = false := by
    rw [hk]; simpa [FieldKind.admits] using hv
  refine ⟨?_, ?_, ?_⟩
  · intro hmem
    have herr : (utari.binMapToBlock ⟨m⟩).2 ≠ none := by
      rw [utari_block_error]
      simp only [List.mem_cons, List.mem_singleton, List.not_mem_nil, or_false] at hmem
      rcases hmem with rfl | rfl | rfl | rfl | rfl
      · exact firstFailure_ne_none _ m _ _ "failed Id assertion" (by simp [blockChecks]) hbad
      · exact firstFailure_ne_none _ m _ _ "failed Prehash assertion" (by simp [blockChecks])
          hbad
      · exact firstFailure_ne_none _ m _ _ "failed Merkleroot assertion"
          (by simp [blockChecks]) hbad
      · exact firstFailure_ne_none _ m _ _ "failed Timestamp assertion"
          (by simp [blockChecks]) hbad
      · exact firstFailure_ne_none _ m _ _ "failed Level assertion" (by simp [blockChecks]) hbad
    exact ⟨herr, utari_block_zero_of_error _ herr⟩
  · intro hmem
    have herr : (utari.binMapToTransaction ⟨m⟩).2 ≠ none := by
      rw [utari_transaction_error]
      simp only [List.mem_cons, List.mem_singleton, List.not_mem_nil, or_false] at hmem
      rcases hmem with rfl | rfl | rfl | rfl | rfl | rfl
      · exact firstFailure_ne_none _ m _ _ "failed Txid assertion"
          (by simp [transactionChecks]) hbad
      · exact firstFailure_ne_none _ m _ _ "failed output assertion"
          (by simp [transactionChecks]) hbad
      · exact firstFailure_ne_none _ m _ _ "failed input assertion"
          (by simp [transactionChecks]) hbad
      · exact firstFailure_ne_none _ m _ _ "failed Timestamp assertion"
          (by simp [transactionChecks]) hbad
      · exact firstFailure_ne_none _ m _ _ "failed sign assertion"
          (by simp [transactionChecks]) hbad
      · exact firstFailure_ne_none _ m _ _ "failed pubkey assertion"
          (by simp [transactionChecks]) hbad
    exact ⟨herr, utari_transaction_zero_of_error _ herr⟩
  · intro hkeq
    subst hkeq
    have herr1 : (utari.binMapToBalance ⟨m⟩).2 ≠ none := by
      rw [utari_balance_error]
      exact firstFailure_ne_none _ m _ _ "failed Address assertion" (by simp [balanceChecks])
        hbad
    have herr2 : (utari.binMapToUnsettled ⟨m⟩).2 ≠ none := by
      rw [utari_unsettled_error]
      exact firstFailure_ne_none _ m _ _ "failed Address assertion" (by simp [unsettledChecks])
        hbad
    exact ⟨⟨herr1, utari_balance_zero_of_error _ herr1⟩,
      ⟨herr2, utari_unsettled_zero_of_error _ herr2⟩⟩

/-- Witness of `string_fields_strict`: an `int` under `Level`, under `Sign` and
under `Address`. -/
theorem string_fields_strict_witness :
    ((utari.binMapToBlock ⟨("Level", .int 3) :: storedBlockBins⟩).2 ≠ none ∧
      (utari.binMapToBlock ⟨("Level", .int 3) :: storedBlockBins⟩).1 = zeroBlock) ∧
    ((utari.binMapToTransaction ⟨("Sign", .int 3) :: utari.transactionToBinMap main.tx⟩).2
        ≠ none ∧
      (utari.binMapToTransaction ⟨("Sign", .int 3) :: utari.transactionToBinMap main.tx⟩).1
        = zeroTransaction) ∧
    ((utari.binMapToBalance ⟨[("Address", .int 3), ("Balance", .float64 ⟨0⟩)]⟩).2 ≠ none ∧
      (utari.binMapToBalance ⟨[("Address", .int 3), ("Balance", .float64 ⟨0⟩)]⟩).1
        = zeroBalance) :=
  ⟨(string_fields_strict (("Level", .int 3) :: storedBlockBins) "Level" (.int 3) rfl rfl).1
      (by decide),
   (string_fields_strict (("Sign", .int 3) :: utari.transactionToBinMap main.tx) "Sign" (.int 3)
      rfl rfl).2.1 (by decide),
   ((string_fields_strict [("Address", .int 3), ("Balance", .float64 ⟨0⟩)] "Address" (.int 3)
      rfl rfl).2.2 rfl).1⟩

/-- Claim C14. Each decoder reports the error of the first failing field in
its check order: Id, Version, Prehash, Merkleroot, Timestamp, Level, Nonce,
Size, Txcount, TxidList for a Block; Txid, Output, Input, Amount, Timestamp,
Sign, Pubkey for a Transaction; Balance, Address for a Balance; Unsettled,
Address for an Unsettled.  When the field `k` is missing or wrongly typed and
every field before it in the order passes, the error is the one of `k`,
whatever the fields after it hold. -/
theorem decoders_report_first_failure (m : BinMap)
    (pre post : List (String × FieldKind × String)) (k : String) (kind : FieldKind)
    (msg : String) (hpre : ∀ c ∈ pre, c.2.1.admits (m.get c.1) = true)
    (hbad : kind.admits (m.get k) = false) :
    (blockChecks = pre ++ (k, kind, msg) :: post →
      utari.binMapToBlock ⟨m⟩ = (zeroBlock, some msg)) ∧
    (transactionChecks = pre ++ (k, kind, msg) :: post →
      utari.binMapToTransaction ⟨m⟩ = (zeroTransaction, some msg)) ∧
    (balanceChecks = pre ++ (k, kind, msg) :: post →
      utari.binMapToBalance ⟨m⟩ = (zeroBalance, some msg)) ∧
    (unsettledChecks = pre ++ (k, kind, msg) :: post →
      utari.binMapToUnsettled ⟨m⟩ = (zeroUnsettled, some msg)) ∧
    (utari.binMapToBlock ⟨m⟩).2 = firstFailure blockChecks m ∧
    (utari.binMapToTransaction ⟨m⟩).2 = firstFailure transactionChecks m ∧
    (utari.binMapToBalance ⟨m⟩).2 = firstFailure balanceChecks m ∧
    (utari.binMapToUnsettled ⟨m⟩).2 = firstFailure unsettledChecks m ∧
    blockChecks.map Prod.fst = ["Id", "Version", "Prehash", "Merkleroot", "Timestamp", "Level",
      "Nonce", "Size", "Txcount", "TxidList"] ∧
    transactionChecks.map Prod.fst = ["Txid", "Output", "Input", "Amount", "Timestamp", "Sign",
      "Pubkey"] ∧
    balanceChecks.map Prod.fst = ["Balance", "Address"] ∧
    unsettledChecks.map Prod.fst = ["Unsettled", "Address"] := by
  have hff := firstFailure_eq pre post m k kind msg hpre hbad
  refine ⟨?_, ?_, ?_, ?_, utari_block_error m, utari_transaction_error m, utari_balance_error m,
    utari_unsettled_error m, rfl, rfl, rfl, rfl⟩
  · intro hc
    have herr : (utari.binMapToBlock ⟨m⟩).2 = some msg := by rw [utari_block_error, hc, hff]
    have hz := utari_block_zero_of_error ⟨m⟩ (by rw [herr]; simp)
    exact Prod.ext hz herr
  · intro hc
    have herr : (utari.binMapToTransaction ⟨m⟩).2 = some msg := by
      rw [utari_transaction_error, hc, hff]
    have hz := utari_transaction_zero_of_error ⟨m⟩ (by rw [herr]; simp)
    exact Prod.ext hz herr
  · intro hc
    have herr : (utari.binMapToBalance ⟨m⟩).2 = some msg := by rw [utari_balance_error, hc, hff]
    have hz := utari_balance_zero_of_error ⟨m⟩ (by rw [herr]; simp)
    exact Prod.ext hz herr
  · intro hc
    have herr : (utari.binMapToUnsettled ⟨m⟩).2 = some msg := by
      rw [utari_unsettled_error, hc, hff]
    have hz := utari_unsettled_zero_of_error ⟨m⟩ (by rw [herr]; simp)
    exact Prod.ext hz herr

/-- Witness of `decoders_report_first_failure`: with `Prehash` missing and
`Nonce` a string the Block error is the one of `Prehash`; with `Input` and
`Sign` missing the Transaction error is the one of `Input`; with nothing in
the map the Balance error is the one of `Balance` and the Unsettled error the
one of `Unsettled`. -/
theorem decoders_report_first_failure_witness :
    utari.binMapToBlock ⟨("Nonce", .str "x") :: storedBlockBins.erase "Prehash"⟩
      = (zeroBlock, some "failed Prehash assertion") ∧
    utari.binMapToTransaction
        ⟨((utari.transactionToBinMap main.tx).erase "Input").erase "Sign"⟩
      = (zeroTransaction, some "failed input assertion") ∧
    utari.binMapToBalance ⟨[]⟩ = (zeroBalance, some "failed Balance assertion") ∧
    utari.binMapToUnsettled ⟨[]⟩ = (zeroUnsettled, some "failed Unssetled assertion") :=
  ⟨(decoders_report_first_failure (("Nonce", .str "x") :: storedBlockBins.erase "Prehash")
      [("Id", .string, "failed Id assertion"), ("Version", .integer, "failed Version assertion")]
      _ "Prehash" .string "failed Prehash assertion"
      (by simp [storedBlockBins, utari.blockToBinMap, BinMap.mapValues, BinMap.erase,
        BinMap.get, wireValue, FieldKind.admits, Value.isString, Value.isInt, main.block])
      rfl).1 rfl,
   (decoders_report_first_failure
      (((utari.transactionToBinMap main.tx).erase "Input").erase "Sign")
      [("Txid", .string, "failed Txid assertion"), ("Output", .string, "failed output assertion")]
      _ "Input" .string "failed input assertion"
      (by simp [utari.transactionToBinMap, BinMap.erase, BinMap.get, FieldKind.admits,
        Value.isString, main.tx])
      rfl).2.1 rfl,
   (decoders_report_first_failure [] [] _ "Balance" .number "failed Balance assertion"
      (by simp) rfl).2.2.1 rfl,
   (decoders_report_first_failure [] [] _ "Unsettled" .number "failed Unssetled assertion"
      (by simp) rfl).2.2.2.1 rfl⟩

/-- Claim C15. For every field map whose other nine Block fields are valid,
`binMapToBlock` succeeds on an empty sequence under `TxidList` and the decoded
`TxidList` is the nil slice, with no elements; without the key `TxidList` it
fails with "failed TxidList assertion". -/
theorem txidList_empty_or_absent (m : BinMap)
    (id prehash merkleroot timestamp level : String) (version nonce size txcount : Int)
    (h1 : m.get "Id" = some (.str id)) (h2 : m.get "Version" = some (.int version))
    (h3 : m.get "Prehash" = some (.str prehash))
    (h4 : m.get "Merkleroot" = some (.str merkleroot))
    (h5 : m.get "Timestamp" = some (.str timestamp)) (h6 : m.get "Level" = some (.str level))
    (h7 : m.get "Nonce" = some (.int nonce)) (h8 : m.get "Size" = some (.int size))
    (h9 : m.get "Txcount" = some (.int txcount)) :
    (m.get "TxidList" = some (.slice []) →
      utari.binMapToBlock ⟨m⟩ =
        (⟨id, toInt32 version, prehash, merkleroot, timestamp, level, toUint32 nonce,
          toInt64 size, toInt64 txcount, none⟩, none)) ∧
    ("TxidList" ∉ m.keys →
      utari.binMapToBlock ⟨m⟩ = (zeroBlock, some "failed TxidList assertion")) := by
  constructor
  · intro h10
    exact utari_binMapToBlock_of_fields m id prehash merkleroot timestamp level version nonce
      size txcount [] none h1 h2 h3 h4 h5 h6 h7 h8 h9 h10 rfl
  · intro hno
    have h10 : m.get "TxidList" = none := (BinMap.get_eq_none_iff m "TxidList").mpr hno
    simp only [utari.binMapToBlock, h1, h2, h3, h4, h5, h6, h7, h8, h9, h10, asString, asInt,
      asSlice]

/-- Witness of `txidList_empty_or_absent`: the stored bins of the Block of
`main` with an empty `TxidList` in front, and with the key `TxidList` erased. -/
theorem txidList_empty_or_absent_witness :
    utari.binMapToBlock ⟨("TxidList", .slice []) :: storedBlockBins⟩ =
        ({ main.block with TxidList := none }, none) ∧
      utari.binMapToBlock ⟨storedBlockBins.erase "TxidList"⟩ =
        (zeroBlock, some "failed TxidList assertion") :=
  ⟨(txidList_empty_or_absent (("TxidList", .slice []) :: storedBlockBins) "testid"
      "testprehash" "testmerkleroot" "test_timestamp" "test_level" 12 123 1234 12345
      rfl rfl rfl rfl rfl rfl rfl rfl rfl).1 rfl,
   (txidList_empty_or_absent (storedBlockBins.erase "TxidList") "testid"
      "testprehash" "testmerkleroot" "test_timestamp" "test_level" 12 123 1234 12345
      rfl rfl rfl rfl rfl rfl rfl rfl rfl).2 (by decide)⟩

/-- Claim C16. Whenever one of the four decoders returns an error, the record
it returns with it is the zero record: all strings empty, all numbers 0,
`TxidList` nil. -/
theorem decode_all_or_nothing (record : Record) :
    ((utari.binMapToBlock record).2 ≠ none → (utari.binMapToBlock record).1 = zeroBlock) ∧
    ((utari.binMapToTransaction record).2 ≠ none →
      (utari.binMapToTransaction record).1 = zeroTransaction) ∧
    ((utari.binMapToBalance record).2 ≠ none → (utari.binMapToBalance record).1 = zeroBalance) ∧
    ((utari.binMapToUnsettled record).2 ≠ none →
      (utari.binMapToUnsettled record).1 = zeroUnsettled) ∧
    zeroBlock = ⟨"", 0, "", "", "", "", 0, 0, 0, none⟩ ∧
    zeroTransaction = ⟨"", "", "", ⟨0⟩, "", "", ""⟩ ∧
    zeroBalance = ⟨"", ⟨0⟩⟩ ∧ zeroUnsettled = ⟨"", ⟨0⟩⟩ ∧ Float64.toRat ⟨0⟩ = 0 :=
  ⟨utari_block_zero_of_error record, utari_transaction_zero_of_error record,
    utari_balance_zero_of_error record, utari_unsettled_zero_of_error record, rfl, rfl, rfl,
    rfl, by simp [Float64.toRat]⟩

/-- Witness of `decode_all_or_nothing`: records that fail at the last check,
after every other field was accepted. -/
theorem decode_all_or_nothing_witness :
    (utari.binMapToBlock ⟨storedBlockBins.erase "TxidList"⟩).1 = zeroBlock ∧
    (utari.binMapToTransaction ⟨(utari.transactionToBinMap main.tx).erase "Pubkey"⟩).1
      = zeroTransaction ∧
    (utari.binMapToBalance ⟨[("Balance", .int 5)]⟩).1 = zeroBalance ∧
    (utari.binMapToUnsettled ⟨[("Unsettled", .int 5)]⟩).1 = zeroUnsettled :=
  ⟨(decode_all_or_nothing ⟨storedBlockBins.erase "TxidList"⟩).1 (by decide),
   (decode_all_or_nothing ⟨(utari.transactionToBinMap main.tx).erase "Pubkey"⟩).2.1 (by decide),
   (decode_all_or_nothing ⟨[("Balance", .int 5)]⟩).2.2.1 (by decide),
   (decode_all_or_nothing ⟨[("Unsettled", .int 5)]⟩).2.2.2.1 (by decide)⟩

/-- Claim C17. Two field maps that agree on every declared field name of a
record kind decode to the same result with the decoder of that kind, whatever
other keys they have. -/
theorem decoders_ignore_other_keys (m1 m2 : BinMap) :
    ((∀ k ∈ blockFields, m1.get k = m2.get k) →
      utari.binMapToBlock ⟨m1⟩ = utari.binMapToBlock ⟨m2⟩) ∧
    ((∀ k ∈ transactionFields, m1.get k = m2.get k) →
      utari.binMapToTransaction ⟨m1⟩ = utari.binMapToTransaction ⟨m2⟩) ∧
    ((∀ k ∈ balanceFields, m1.get k = m2.get k) →
      utari.binMapToBalance ⟨m1⟩ = utari.binMapToBalance ⟨m2⟩) ∧
    ((∀ k ∈ unsettledFields, m1.get k = m2.get k) →
      utari.binMapToUnsettled ⟨m1⟩ = utari.binMapToUnsettled ⟨m2⟩) := by
  refine ⟨?_, ?_, ?_, ?_⟩
  · intro h
    simp only [blockFields, List.forall_mem_cons] at h
    obtain ⟨h1, h2, h3, h4, h5, h6, h7, h8, h9, h10, -⟩ := h
    simp only [utari.binMapToBlock, h1, h2, h3, h4, h5, h6, h7, h8, h9, h10]
  · intro h
    simp only [transactionFields, List.forall_mem_cons] at h
    obtain ⟨h1, h2, h3, h4, h5, h6, h7, -⟩ := h
    simp only [utari.binMapToTransaction, h1, h2, h3, h4, h5, h6, h7]
  · intro h
    simp only [balanceFields, List.forall_mem_cons] at h
    obtain ⟨h1, h2, -⟩ := h
    simp only [utari.binMapToBalance, h1, h2]
  · intro h
    simp only [unsettledFields, List.forall_mem_cons] at h
    obtain ⟨h1, h2, -⟩ := h
    simp only [utari.binMapToUnsettled, h1, h2]

/-- Witness of `decoders_ignore_other_keys`: the valid bins of each kind with
and without an extra key `Extra` in front. -/
theorem decoders_ignore_other_keys_witness :
    utari.binMapToBlock ⟨("Extra", .int 1) :: storedBlockBins⟩
      = utari.binMapToBlock ⟨storedBlockBins⟩ ∧
    utari.binMapToTransaction ⟨("Extra", .int 1) :: utari.transactionToBinMap main.tx⟩
      = utari.binMapToTransaction ⟨utari.transactionToBinMap main.tx⟩ ∧
    utari.binMapToBalance ⟨("Extra", .int 1) :: utari.balanceToBinMap ⟨"addr", ⟨0⟩⟩⟩
      = utari.binMapToBalance ⟨utari.balanceToBinMap ⟨"addr", ⟨0⟩⟩⟩ ∧
    utari.binMapToUnsettled ⟨("Extra", .int 1) :: utari.unsettledToBinMap ⟨"addr", ⟨0⟩⟩⟩
      = utari.binMapToUnsettled ⟨utari.unsettledToBinMap ⟨"addr", ⟨0⟩⟩⟩ :=
  ⟨(decoders_ignore_other_keys (("Extra", .int 1) :: storedBlockBins) storedBlockBins).1
      (by
        intro k hk
        simp only [blockFields, List.mem_cons, List.mem_singleton, List.not_mem_nil,
          or_false] at hk
        rcases hk with rfl | rfl | rfl | rfl | rfl | rfl | rfl | rfl | rfl | rfl <;> rfl),
   (decoders_ignore_other_keys (("Extra", .int 1) :: utari.transactionToBinMap main.tx)
      (utari.transactionToBinMap main.tx)).2.1
      (by
        intro k hk
        simp only [transactionFields, List.mem_cons, List.mem_singleton, List.not_mem_nil,
          or_false] at hk
        rcases hk with rfl | rfl | rfl | rfl | rfl | rfl | rfl <;> rfl),
   (decoders_ignore_other_keys (("Extra", .int 1) :: utari.balanceToBinMap ⟨"addr", ⟨0⟩⟩)
      (utari.balanceToBinMap ⟨"addr", ⟨0⟩⟩)).2.2.1
      (by
        intro k hk
        simp only [balanceFields, List.mem_cons, List.mem_singleton, List.not_mem_nil,
          or_false] at hk
        rcases hk with rfl | rfl <;> rfl),
   (decoders_ignore_other_keys (("Extra", .int 1) :: utari.unsettledToBinMap ⟨"addr", ⟨0⟩⟩)
      (utari.unsettledToBinMap ⟨"addr", ⟨0⟩⟩)).2.2.2
      (by
        intro k hk
        simp only [unsettledFields, List.mem_cons, List.mem_singleton, List.not_mem_nil,
          or_false] at hk
        rcases hk with rfl | rfl <;> rfl)⟩

/-- Claim C18. The two copies of the codec agree: `binMapToBlock` of `main.go`
and of `util.go` return the same result on every record, and so do the two
`binMapToTransaction` on every record whose `Amount` is not an `int`.  On an
`int` under `Amount` the copy of `main.go` fails where the one of `util.go`
succeeds. -/
theorem codec_copies_agree (record : Record) :
    main.binMapToBlock record = utari.binMapToBlock record ∧
    ((∀ n, record.Bins.get "Amount" ≠ some (.int n)) →
      main.binMapToTransaction record = utari.binMapToTransaction record) ∧
    (main.binMapToTransaction ⟨("Amount", .int 5) :: utari.transactionToBinMap main.tx⟩
        = (zeroTransaction, some "failed Amount assertion") ∧
      utari.binMapToTransaction ⟨("Amount", .int 5) :: utari.transactionToBinMap main.tx⟩
        = ({ main.tx with Amount := toFloat64 5 }, none)) := by
  refine ⟨main_binMapToBlock_eq record, ?_, rfl, rfl⟩
  intro h
  have hint : asInt (record.Bins.get "Amount") = none := by
    cases hg : record.Bins.get "Amount" with
    | none => rfl
    | some v =>
      cases v with
      | int n => exact absurd hg (h n)
      | _ => rfl
  simp only [main.binMapToTransaction, utari.binMapToTransaction, hint]
  cases asFloat64 (record.Bins.get "Amount") <;> rfl

/-- Witness of `codec_copies_agree`: the bins of the Transaction of `main`,
whose `Amount` is a `float64`. -/
theorem codec_copies_agree_witness :
    main.binMapToTransaction ⟨utari.transactionToBinMap main.tx⟩
      = utari.binMapToTransaction ⟨utari.transactionToBinMap main.tx⟩ :=
  (codec_copies_agree ⟨utari.transactionToBinMap main.tx⟩).2.1
    (by intro n hn; simp [utari.transactionToBinMap, BinMap.get] at hn)

/-- Claim C19. For every Balance `b`, `binMapToBalance` on a record whose bins
are `balanceToBinMap b` returns `b` and no error, and for every Unsettled `u`,
`binMapToUnsettled` on a record whose bins are `unsettledToBinMap u` returns
`u` and no error. -/
theorem balance_unsettled_roundtrip (b : Balance) (u : Unsettled) :
    utari.binMapToBalance ⟨utari.balanceToBinMap b⟩ = (b, none) ∧
    utari.binMapToUnsettled ⟨utari.unsettledToBinMap u⟩ = (u, none) :=
  ⟨rfl, rfl⟩
